import Mathlib

/-!
Verification of the `sonarcloud-code-smell-analyzer` repository.

Python strings are modelled as `List Char` (`Str`), and the Python string
primitives used by the code (`strip`, `split`, `in`, `startswith`, ...)
are defined below as executable Lean functions.  Character classes model
the ASCII/Latin-1 behaviour of the corresponding Python predicates
(`str.isspace`, `\w`, `str.isdigit`, `str.lower`); characters outside
Latin-1 are not modelled.
-/

namespace PyStr

/-- Python strings, modelled as lists of characters. -/
abbrev Str := List Char

/-- `str.isspace` / regex `\s` on the ASCII/Latin-1 range. -/
def pySpace (c : Char) : Bool :=
  c = ' ' || c = '\t' || c = '\n' || c = '\r' || c = '\x0b' || c = '\x0c' ||
  c = '\x1c' || c = '\x1d' || c = '\x1e' || c = '\x1f' || c = '\x85' || c = '\xa0'

/-- ASCII `str.lower` on a single character. -/
def lowerChar (c : Char) : Char := c.toLower

/-- Python `s.lower()` (ASCII range). -/
def lower (s : Str) : Str := s.map lowerChar

/-- Python `s.upper()` on a single character (ASCII range). -/
def upperChar (c : Char) : Char := c.toUpper

/-- regex `\w`: word character (ASCII model: letters, digits, underscore). -/
def isWordChar (c : Char) : Bool :=
  (('a' ≤ c && c ≤ 'z') || ('A' ≤ c && c ≤ 'Z') || ('0' ≤ c && c ≤ '9') || c = '_')

/-- Python `str.isdigit` on a single character (ASCII model). -/
def isDigitChar (c : Char) : Bool := '0' ≤ c && c ≤ '9'

/-- Python `s.isdigit()`: nonempty and all digits. -/
def isDigitStr (s : Str) : Bool := !s.isEmpty && s.all isDigitChar

/-- `int(s)` for a string of ASCII digits. -/
def natOfDigits (s : Str) : Nat :=
  s.foldl (fun n c => n * 10 + (c.toNat - '0'.toNat)) 0

/-- Python `s.startswith(p)`. -/
def pyStarts : Str → Str → Bool
  | _, [] => true
  | [], _ :: _ => false
  | c :: t, p :: q => c = p && pyStarts t q

/-- Python `s.endswith(p)`. -/
def pyEnds (s p : Str) : Bool := pyStarts s.reverse p.reverse

/-- Python substring containment `p in s`. -/
def containsSub : Str → Str → Bool
  | [], p => p.isEmpty
  | c :: t, p => pyStarts (c :: t) p || containsSub t p

/-- Split at the first occurrence of `sub`: Python `s.split(sub, 1)` when
`sub in s`, returning the parts before and after the occurrence. -/
def splitFirst (sub : Str) : Str → Option (Str × Str)
  | [] => if sub.isEmpty then some ([], []) else none
  | c :: t =>
    if pyStarts (c :: t) sub then some ([], (c :: t).drop sub.length)
    else (splitFirst sub t).map (fun pr => (c :: pr.1, pr.2))

/-- Python `s.split(sep)` for a single-character separator. -/
def splitOnChar (sep : Char) : Str → List Str
  | [] => [[]]
  | c :: t =>
    if c = sep then [] :: splitOnChar sep t
    else
      match splitOnChar sep t with
      | [] => [[c]]
      | h :: r => (c :: h) :: r

/-- Python `s.split("\n")`. -/
def splitNL : Str → List Str := splitOnChar '\n'

/-- Python `"\n".join(xs)`. -/
def joinNL (xs : List Str) : Str := (xs.intersperse ['\n']).flatten

/-- Python `s.split(sep, 1)` for a single-character separator: first part
and the optional remainder. -/
def splitOnceChar (sep : Char) (s : Str) : Str × Option Str :=
  match splitFirst [sep] s with
  | some (a, b) => (a, some b)
  | none => (s, none)

/-- Python `s.lstrip()`. -/
def stripLeft (s : Str) : Str := s.dropWhile pySpace

/-- Python `s.rstrip()`. -/
def stripRight : Str → Str
  | [] => []
  | c :: t =>
    match stripRight t with
    | [] => if pySpace c then [] else [c]
    | h :: r => c :: h :: r

/-- Python `s.strip()`. -/
def strip (s : Str) : Str := stripLeft (stripRight s)

/-- Python `s.rstrip(".")` (used by the subject formatter). -/
def stripRightDots : Str → Str
  | [] => []
  | c :: t =>
    match stripRightDots t with
    | [] => if c = '.' then [] else [c]
    | h :: r => c :: h :: r

/-- Python `s.split()` (split on whitespace runs, dropping empty parts). -/
def splitWS (s : Str) : List Str :=
  match s with
  | [] => []
  | c :: t =>
    if pySpace c then splitWS t
    else
      (c :: t).takeWhile (fun d => !pySpace d) ::
        splitWS ((c :: t).dropWhile (fun d => !pySpace d))
termination_by s.length
decreasing_by
  · simp
  · simp only [List.dropWhile]
    have h1 : (!pySpace c) = true := by simp [*]
    rw [h1]
    exact Nat.lt_succ_of_le (List.dropWhile_suffix _).length_le

/-- Python `" ".join(xs)`. -/
def joinSpace (xs : List Str) : Str := (xs.intersperse [' ']).flatten

/-- Python `str.title()` (ASCII model): a letter is uppercased when not
preceded by a letter, lowercased otherwise. -/
def pyTitleGo (prevAlpha : Bool) : Str → Str
  | [] => []
  | c :: t =>
    (if c.isAlpha then (if prevAlpha then lowerChar c else upperChar c) else c) ::
      pyTitleGo c.isAlpha t

/-- Python `s.title()`. -/
def pyTitle (s : Str) : Str := pyTitleGo false s

/-- The extension part of `os.path.splitext(path)`, lowercased by callers
separately.  The extension starts at the last dot of the final path
segment, provided some earlier character of that segment is not a dot. -/
def splitextExt (path : Str) : Str :=
  let base := (splitOnChar '/' path).getLastD []
  let idxs := (List.range base.length).filter (fun i => base.getD i ' ' = '.')
  match idxs.getLast? with
  | none => []
  | some i =>
    if (List.range i).all (fun j => base.getD j ' ' = '.') then []
    else base.drop i

/-- The root part of `os.path.splitext(name)` for a bare file name
(no directory separators): the name with its extension removed. -/
def splitextRoot (name : Str) : Str :=
  name.take (name.length - (splitextExt name).length)

/-- `str(n)` for a natural number. -/
def natToStrGo : Nat → Str → Str
  | 0, acc => acc
  | n + 1, acc =>
    natToStrGo ((n + 1) / 10) (Char.ofNat ('0'.toNat + (n + 1) % 10) :: acc)
decreasing_by
  exact Nat.div_lt_self (Nat.succ_pos n) (by omega)

/-- `str(n)`. -/
def natToStr (n : Nat) : Str :=
  if n = 0 then ['0'] else natToStrGo n []

/-- Last-wins association-list lookup, as for Python `dict(pairs)[k]`. -/
def dictGet (pairs : List (Str × Str)) (key : Str) (dflt : Str) : Str :=
  match pairs.reverse.find? (fun p => p.1 = key) with
  | some p => p.2
  | none => dflt

end PyStr

open PyStr

/-! ## `conventional_commit.py` -/

namespace ConvCommit

/-- `CommitType` enum (the `description`/`color` payloads are not used by any
claim and are omitted). -/
inductive CommitType where
  | FEAT | FIX | DOCS | STYLE | REFACTOR | TEST | CHORE | PERF | CI | BUILD | REVERT
deriving DecidableEq

/-- `CommitType.type_name`. -/
def CommitType.type_name : CommitType → Str
  | .FEAT => "feat".data
  | .FIX => "fix".data
  | .DOCS => "docs".data
  | .STYLE => "style".data
  | .REFACTOR => "refactor".data
  | .TEST => "test".data
  | .CHORE => "chore".data
  | .PERF => "perf".data
  | .CI => "ci".data
  | .BUILD => "build".data
  | .REVERT => "revert".data

/-- Enum member iteration order (`for commit_type in cls`). -/
def allCommitTypes : List CommitType :=
  [.FEAT, .FIX, .DOCS, .STYLE, .REFACTOR, .TEST, .CHORE, .PERF, .CI, .BUILD, .REVERT]

/-- `CommitType.from_string`. -/
def CommitType.from_string (type_str : Str) : Option CommitType :=
  let t := lower type_str
  allCommitTypes.find? (fun ct => ct.type_name == t)

/-- `ConventionalCommit` dataclass. -/
structure ConventionalCommit where
  type : CommitType
  scope : Option Str
  subject : Str
  body : Option Str
  footer : Option Str
  breaking : Bool
  breaking_description : Option Str
deriving DecidableEq

/-- Python truthiness of an optional string (`if self.scope:` etc.):
`None` and the empty string are falsy. -/
def truthy : Option Str → Bool
  | none => false
  | some s => !s.isEmpty

/-- `ConventionalCommit.format`. -/
def ConventionalCommit.format (c : ConventionalCommit) : Str :=
  let header :=
    c.type.type_name ++
    (if truthy c.scope then '(' :: (c.scope.getD [] ++ [')']) else []) ++
    (if c.breaking then ['!'] else []) ++
    (':' :: ' ' :: c.subject)
  let parts :=
    [header] ++
    (if truthy c.body then [([] : Str), c.body.getD []] else []) ++
    (if c.breaking && truthy c.breaking_description then
      [([] : Str), "BREAKING CHANGE: ".data ++ c.breaking_description.getD []] else []) ++
    (if truthy c.footer then [([] : Str), c.footer.getD []] else [])
  joinNL parts

/-- The literal split on by the parser's BREAKING CHANGE handling. -/
def BCMark : Str := "BREAKING CHANGE:".data

/-- `ConventionalCommitParser.PATTERN` applied with `.match` to a single
line (the header, which contains no newline).  The regex
`^(?P<type>\w+)(?:\((?P<scope>[^)]+)\))?(?P<breaking>!)?:\s*(?P<subject>.+)$`
is compiled to a deterministic scan: `\w+` is greedy and the characters
that may legally follow (`(`, `!`, `:`) are not word characters, so the
maximal munch is exact; `[^)]+` stops exactly at the next `)`; when the
optional scope or `!` group fails after consuming input, the regex
backtracks to not using the group, and the following required character
test fails on the same input, so failing outright is faithful; `\s*` is
greedy but backtracks one character when `.+` would otherwise be empty,
so an all-whitespace remainder captures its last character. -/
def parseHeader (line : Str) : Option (Str × Option Str × Bool × Str) :=
  let tw := line.takeWhile isWordChar
  if tw.isEmpty then none
  else
    let r1 := line.dropWhile isWordChar
    let scopeRes : Option (Option Str × Str) :=
      if pyStarts r1 ['('] then
        let r2 := r1.drop 1
        let inner := r2.takeWhile (fun c => !(c = ')'))
        if inner.isEmpty then none
        else if pyStarts (r2.drop inner.length) [')'] then
          some (some inner, r2.drop (inner.length + 1))
        else none
      else some (none, r1)
    match scopeRes with
    | none => none
    | some (sc, r3) =>
      let brRes := if pyStarts r3 ['!'] then (true, r3.drop 1) else (false, r3)
      if pyStarts brRes.2 [':'] then
        let r5 := brRes.2.drop 1
        let dw := r5.dropWhile pySpace
        if !dw.isEmpty then some (tw, sc, brRes.1, dw)
        else if !r5.isEmpty then some (tw, sc, brRes.1, [r5.getLastD ' '])
        else none
      else none

/-- Footer-line test in the parser's else-branch: regex
`^[\w-]+(-by)?:\s` (whose `(-by)?` is subsumed by `[\w-]+`, so the match
condition is: a nonempty run of word/dash characters followed by `:` and
a whitespace character) or `^(Fixes|Closes|Resolves)\s+#\d+`
(case-insensitive). -/
def isFooterLine (line : Str) : Bool :=
  (let run := line.takeWhile (fun c => isWordChar c || c = '-')
   !run.isEmpty &&
     (match line.drop run.length with
      | ':' :: c :: _ => pySpace c
      | _ => false)) ||
  (let low := lower line
   ["fixes".data, "closes".data, "resolves".data].any (fun w =>
     pyStarts low w &&
       (let rest := low.drop w.length
        let sp := rest.takeWhile pySpace
        !sp.isEmpty &&
          (match rest.drop sp.length with
           | '#' :: d :: _ => isDigitChar d
           | _ => false))))

/-- One step of the parser's body/footer classification loop. -/
def classifyGo (st : Bool × List Str × List Str) (line : Str) : Bool × List Str × List Str :=
  if isFooterLine line then (true, st.2.1, st.2.2 ++ [line])
  else if st.1 then (true, st.2.1, st.2.2 ++ [line])
  else (false, st.2.1 ++ [line], st.2.2)

/-- `ConventionalCommitParser.parse`. -/
def parse (message : Str) : Option ConventionalCommit :=
  let lines := splitNL (strip message)
  match lines with
  | [] => none
  | header :: _ =>
    match parseHeader header with
    | none => none
    | some (typeStr, scope, breakingHdr, subjectRaw) =>
      match CommitType.from_string typeStr with
      | none => none
      | some commit_type =>
        let subject := strip subjectRaw
        if lines.length > 2 then
          let remaining :=
            if lines.getD 1 [] = ([] : Str) then joinNL (lines.drop 2)
            else joinNL (lines.drop 1)
          match splitFirst BCMark remaining with
          | some (before, after) =>
            let body := if (strip before).isEmpty then none else some (strip before)
            let fp := splitOnceChar '\n' (strip after)
            some { type := commit_type, scope := scope, subject := subject,
                   body := body, footer := fp.2.map strip,
                   breaking := true, breaking_description := some (strip fp.1) }
          | none =>
            let st := (splitNL remaining).foldl classifyGo (false, [], [])
            let body := if (strip (joinNL st.2.1)).isEmpty then none
                        else some (strip (joinNL st.2.1))
            let footer := if (strip (joinNL st.2.2)).isEmpty then none
                          else some (strip (joinNL st.2.2))
            some { type := commit_type, scope := scope, subject := subject,
                   body := body, footer := footer,
                   breaking := breakingHdr, breaking_description := none }
        else
          some { type := commit_type, scope := scope, subject := subject,
                 body := none, footer := none,
                 breaking := breakingHdr, breaking_description := none }

/-- `CommitMessageFormatter.MAX_SUBJECT_LENGTH`. -/
def MAX_SUBJECT_LENGTH : Nat := 50

/-- `CommitMessageFormatter.MAX_BODY_LINE_LENGTH`. -/
def MAX_BODY_LINE_LENGTH : Nat := 72

/-- `CommitMessageFormatter.format_subject`. -/
def format_subject (subject : Str) : Str :=
  if subject.isEmpty then subject
  else
    let s1 := lowerChar (subject.headD ' ') :: subject.tail
    let s2 := stripRightDots s1
    if s2.length > MAX_SUBJECT_LENGTH then s2.take (MAX_SUBJECT_LENGTH - 3) ++ "...".data
    else s2

/-- `CommitMessageFormatter._wrap_line` (the greedy word-wrap loop,
with its fold state `(lines, current_line, current_length)`). -/
def wrap_line (line : Str) : List Str :=
  let st := (splitWS line).foldl
    (fun (st : List Str × List Str × Nat) word =>
      if st.2.2 + word.length + (if st.2.1.isEmpty then 0 else 1) ≤ MAX_BODY_LINE_LENGTH then
        (st.1, st.2.1 ++ [word],
          st.2.2 + word.length + (if (st.2.1 ++ [word]).length > 1 then 1 else 0))
      else
        ((if st.2.1.isEmpty then st.1 else st.1 ++ [joinSpace st.2.1]), [word], word.length))
    ([], [], 0)
  if st.2.1.isEmpty then st.1 else st.1 ++ [joinSpace st.2.1]

/-- `CommitMessageFormatter.format_body`. -/
def format_body (body : Str) : Str :=
  if body.isEmpty then body
  else
    joinNL ((splitNL body).flatMap (fun line =>
      if pyStarts line "```".data || pyStarts line "  ".data ||
         pyStarts line "- ".data || pyStarts line "* ".data then [line]
      else if line.length > MAX_BODY_LINE_LENGTH then wrap_line line
      else [line]))

/-- `CommitMessageFormatter.create_commit_message`. -/
def create_commit_message (commit_type : CommitType) (subject : Str)
    (scope : Option Str) (body : Option Str) (footer : Option Str)
    (breaking : Bool) (breaking_description : Option Str) : Str :=
  ConventionalCommit.format
    { type := commit_type, scope := scope,
      subject := format_subject subject,
      body := match body with
        | some b => if b.isEmpty then none else some (format_body b)
        | none => none,
      footer := footer, breaking := breaking,
      breaking_description := breaking_description }

end ConvCommit

/-! ## `jacoco.py`

`JaCoCoSourceHTMLParser` subclasses the standard-library `html.parser.
HTMLParser`; the library tokenizes the document and invokes the
`handle_starttag`/`handle_endtag`/`handle_data` callbacks.  The shallow
embedding therefore works on the stream of those events; the library's
tokenizer itself is not repository code and is not modelled. -/

namespace Jacoco

/-- One HTMLParser callback event. -/
inductive HEvent where
  | start (tag : Str) (attrs : List (Str × Str))
  | close (tag : Str)
  | data (d : Str)
deriving DecidableEq

/-- `MissedBranch` dataclass. -/
structure MissedBranch where
  file_path : Str
  class_name : Str
  line_number : Nat
  branch_info : Str
  source_line : Str
deriving DecidableEq

/-- `UncoveredLine` dataclass. -/
structure UncoveredLine where
  file_path : Str
  class_name : Str
  line_number : Nat
  source_line : Str
  instruction_missed : Nat := 0
  instruction_covered : Nat := 0
deriving DecidableEq

/-- The mutable state of a `JaCoCoSourceHTMLParser` instance
(`self.in_code` is assigned in `__init__` and never read; it is kept for
completeness). -/
structure PState where
  file_path : Str
  class_name : Str
  missed_branches : List MissedBranch
  uncovered_lines : List UncoveredLine
  current_line_number : Nat
  current_line_class : Str
  current_line_title : Str
  current_line_content : Str
  in_span : Bool
  span_class : Str
  span_title : Str
  in_code : Bool
  in_pre : Bool
deriving DecidableEq

/-- `JaCoCoSourceHTMLParser.__init__`. -/
def initState (file_path class_name : Str) : PState :=
  { file_path := file_path, class_name := class_name,
    missed_branches := [], uncovered_lines := [],
    current_line_number := 0, current_line_class := [],
    current_line_title := [], current_line_content := [],
    in_span := false, span_class := [], span_title := [],
    in_code := false, in_pre := false }

/-- `JaCoCoSourceHTMLParser._process_line`. -/
def process_line (s : PState) : PState :=
  let line_content := strip s.current_line_content
  if line_content.isEmpty then s
  else
    let s1 :=
      if containsSub s.current_line_class "pc".data then
        { s with missed_branches := s.missed_branches ++
            [{ file_path := s.file_path, class_name := s.class_name,
               line_number := s.current_line_number,
               branch_info := if !s.current_line_title.isEmpty then s.current_line_title
                              else "Partially covered".data,
               source_line := line_content }] }
      else s
    if containsSub s1.current_line_class "nc".data then
      { s1 with uncovered_lines := s1.uncovered_lines ++
          [{ file_path := s1.file_path, class_name := s1.class_name,
             line_number := s1.current_line_number,
             source_line := line_content }] }
    else s1

/-- `JaCoCoSourceHTMLParser.handle_starttag`. -/
def handle_starttag (s : PState) (tag : Str) (attrs : List (Str × Str)) : PState :=
  let s := if tag = "pre".data then { s with in_pre := true } else s
  if tag = "span".data && s.in_pre then
    let span_class := dictGet attrs "class".data []
    let span_title := dictGet attrs "title".data []
    let span_id := dictGet attrs "id".data []
    let s := { s with in_span := true, span_class := span_class, span_title := span_title }
    if pyStarts span_id "L".data && isDigitStr (span_id.drop 1) then
      { s with current_line_number := natOfDigits (span_id.drop 1),
               current_line_class := span_class,
               current_line_title := span_title,
               current_line_content := [] }
    else s
  else s

/-- `JaCoCoSourceHTMLParser.handle_endtag`. -/
def handle_endtag (s : PState) (tag : Str) : PState :=
  let s := if tag = "pre".data then { s with in_pre := false } else s
  if tag = "span".data && s.in_span then
    let s := { s with in_span := false }
    if s.current_line_number > 0 then process_line s else s
  else s

/-- `JaCoCoSourceHTMLParser.handle_data`. -/
def handle_data (s : PState) (d : Str) : PState :=
  if s.in_span && s.in_pre then
    { s with current_line_content := s.current_line_content ++ d }
  else s

/-- Dispatch one event to the parser callbacks. -/
def stepEvent (s : PState) : HEvent → PState
  | .start tag attrs => handle_starttag s tag attrs
  | .close tag => handle_endtag s tag
  | .data d => handle_data s d

/-- Feed a whole event stream from the initial state. -/
def runEvents (file_path class_name : Str) (events : List HEvent) : PState :=
  events.foldl stepEvent (initState file_path class_name)

/-- `parse_source_file`.  The two effectful steps are abstracted as data:
`readResult` is the outcome of `open(...).read()` (`none` models an
`IOError`/`UnicodeDecodeError`), and `tokenize` is the outcome of the
stdlib tokenizer driving the callbacks from `parser.feed(content)`
(`Except.error` models `feed` raising, caught by `except Exception`). -/
def parse_source_file (file_path class_name : Str)
    (readResult : Option Str)
    (tokenize : Str → Except Unit (List HEvent)) :
    List MissedBranch × List UncoveredLine :=
  match readResult with
  | none => ([], [])
  | some content =>
    match tokenize content with
    | .error _ => ([], [])
    | .ok events =>
      let parser := runEvents file_path class_name events
      (parser.missed_branches, parser.uncovered_lines)

/-- One enumerated per-class source HTML page, with its effect outcomes
(cf. `find_source_html_files`, which yields `(file_path, class_name,
rel_path)` triples). -/
structure SourceFileInput where
  file_path : Str
  class_name : Str
  rel_path : Str
  readResult : Option Str
  tokenize : Str → Except Unit (List HEvent)

/-- `JaCoCoAnalysisResult` (the `coverage_stats` list is populated by the
index parser, which no claim concerns; it is omitted). -/
structure JaCoCoAnalysisResult where
  missed_branches : List MissedBranch
  uncovered_lines : List UncoveredLine
  total_files_analyzed : Nat
  source_directory : Str

/-- The per-file loop body of `analyze_jacoco_report`: parse one page and
rewrite the `file_path` fields to the page's relative path. -/
def analyzeFileStep (acc : JaCoCoAnalysisResult) (f : SourceFileInput) : JaCoCoAnalysisResult :=
  let pr := parse_source_file f.file_path f.class_name f.readResult f.tokenize
  { acc with
    missed_branches := acc.missed_branches ++ pr.1.map (fun mb => { mb with file_path := f.rel_path }),
    uncovered_lines := acc.uncovered_lines ++ pr.2.map (fun ul => { ul with file_path := f.rel_path }) }

/-- The aggregation loop of `analyze_jacoco_report`, starting from the
point where the source pages have been enumerated:
`result.total_files_analyzed = len(source_files)` followed by the
per-file parse loop.  (Archive extraction and index lookup are
filesystem work preceding this loop; a missing index raises before any
page is parsed.) -/
def analyze_jacoco_report (source_directory : Str)
    (source_files : List SourceFileInput) : JaCoCoAnalysisResult :=
  source_files.foldl analyzeFileStep
    { missed_branches := [], uncovered_lines := [],
      total_files_analyzed := source_files.length,
      source_directory := source_directory }

end Jacoco

/-! ## `git_operations.py` (data model and complexity score) -/

namespace GitOps

/-- `FileChange` dataclass. -/
structure FileChange where
  file_path : Str
  status : Str
  additions : Nat
  deletions : Nat
  is_binary : Bool
  old_path : Option Str
deriving DecidableEq

/-- `StagedChanges` dataclass. -/
structure StagedChanges where
  files : List FileChange
  total_additions : Nat
  total_deletions : Nat
  total_files : Nat
  diff_content : Str
deriving DecidableEq

/-- `ChangeMetrics` dataclass (`file_types` is a counting dict, modelled
as an insertion-ordered association list). -/
structure ChangeMetrics where
  total_lines_changed : Nat
  total_files : Nat
  files_added : Nat
  files_modified : Nat
  files_deleted : Nat
  files_renamed : Nat
  directories_affected : Nat
  file_types : List (Str × Nat)
  complexity_score : Nat
deriving DecidableEq

/-- `GitOperations._calculate_complexity_score`. -/
def calculate_complexity_score (lines files dirs types : Nat) : Nat :=
  let score := 0
  let score := score +
    (if lines > 500 then 50 else if lines > 200 then 30 else if lines > 100 then 15
     else if lines > 50 then 5 else 0)
  let score := score +
    (if files > 20 then 30 else if files > 10 then 20 else if files > 5 then 10
     else if files > 2 then 5 else 0)
  let score := score +
    (if dirs > 10 then 20 else if dirs > 5 then 10 else if dirs > 2 then 5 else 0)
  let score := score +
    (if types > 5 then 15 else if types > 3 then 10 else if types > 1 then 5 else 0)
  score

end GitOps

/-! ## `commit_splitter.py` (and `CommitTypeDetector` from
`conventional_commit.py`, which it calls)

The category tables are ordered lists of case-insensitive regular
expressions.  Every pattern in those tables is a literal with at most a
`$`/`^` anchor and a one-character option (`[s]?`, `[s_]?`, `a?`), so
each is compiled to an explicit substring/prefix/suffix test (`Pat`),
with the original regex noted beside it. -/

namespace Splitter

open GitOps ConvCommit

/-- `FileCategory` enum. -/
inductive FileCategory where
  | SOURCE | TEST | DOCS | CONFIG | BUILD | STYLE | OTHER
deriving DecidableEq

/-- `FileCategory.value`. -/
def categoryValue : FileCategory → Str
  | .SOURCE => "source".data
  | .TEST => "test".data
  | .DOCS => "docs".data
  | .CONFIG => "config".data
  | .BUILD => "build".data
  | .STYLE => "style".data
  | .OTHER => "other".data

/-- Compiled form of the simple regexes in the pattern tables. -/
inductive Pat where
  | sub (s : Str)
  | anchorStart (s : Str)
  | anchorEnd (s : Str)
  | alt (a b : Pat)
deriving DecidableEq

/-- `re.search(pattern, path)` for a compiled `Pat` (case-sensitive). -/
def Pat.search : Pat → Str → Bool
  | .sub s, p => containsSub p s
  | .anchorStart s, p => pyStarts p s
  | .anchorEnd s, p => pyEnds p s
  | .alt a b, p => a.search p || b.search p

/-- Lowercase the literals of a compiled pattern. -/
def Pat.lowerLits : Pat → Pat
  | .sub s => .sub (lower s)
  | .anchorStart s => .anchorStart (lower s)
  | .anchorEnd s => .anchorEnd (lower s)
  | .alt a b => .alt a.lowerLits b.lowerLits

/-- `re.search(pattern, path, re.IGNORECASE)` for a compiled `Pat`. -/
def searchCI (p : Pat) (path : Str) : Bool :=
  (p.lowerLits).search (lower path)

/-- `FileCategorizer.CATEGORY_PATTERNS[TEST]`. -/
def TEST_PATS : List Pat :=
  [.alt (.sub "tests/".data) (.sub "test/".data),  -- r"test[s]?/"
     .sub "__tests__/".data,                         -- r"__tests__/"
     .sub "_test.".data,                             -- r"_test\."
     .sub ".test.".data,                             -- r"\.test\."
     .sub ".spec.".data,                             -- r"\.spec\."
     .sub "test_".data]

/-- `FileCategorizer.CATEGORY_PATTERNS[DOCS]`. -/
def DOCS_PATS : List Pat :=
  [.anchorEnd ".md".data,                          -- r"\.md$"
     .anchorEnd ".rst".data,                         -- r"\.rst$"
     .anchorEnd ".txt".data,                         -- r"\.txt$"
     .alt (.anchorStart "docs/".data) (.anchorStart "doc/".data),  -- r"^docs?/"
     .sub "README".data,                             -- r"README"
     .sub "CHANGELOG".data,                          -- r"CHANGELOG"
     .sub "LICENSE".data,                            -- r"LICENSE"
     .sub "CONTRIBUTING".data]

/-- `FileCategorizer.CATEGORY_PATTERNS[CONFIG]`. -/
def CONFIG_PATS : List Pat :=
  [.anchorEnd ".json".data,                        -- r"\.json$"
     .alt (.anchorEnd ".yaml".data) (.anchorEnd ".yml".data),  -- r"\.ya?ml$"
     .anchorEnd ".toml".data,                        -- r"\.toml$"
     .anchorEnd ".ini".data,                         -- r"\.ini$"
     .anchorEnd ".cfg".data,                         -- r"\.cfg$"
     .anchorEnd ".conf".data,                        -- r"\.conf$"
     .sub ".env".data,                               -- r"\.env"
     .anchorEnd ".gitignore".data,                   -- r"\.gitignore$"
     .anchorEnd ".editorconfig".data,                -- r"\.editorconfig$"
     .sub ".prettierrc".data,                        -- r"\.prettierrc"
     .sub ".eslintrc".data,                          -- r"\.eslintrc"
     .sub "tsconfig".data,                           -- r"tsconfig"
     .sub "jest.config".data,                        -- r"jest\.config"
     .sub "webpack.config".data,                     -- r"webpack\.config"
     .sub "babel.config".data]

/-- `FileCategorizer.CATEGORY_PATTERNS[BUILD]`. -/
def BUILD_PATS : List Pat :=
  [.sub "Dockerfile".data,                         -- r"Dockerfile"
     .sub "docker-compose".data,                     -- r"docker-compose"
     .anchorEnd "Makefile".data,                     -- r"Makefile$"
     .sub ".github/".data,                           -- r"\.github/"
     .sub ".gitlab-ci".data,                         -- r"\.gitlab-ci"
     .sub ".travis".data,                            -- r"\.travis"
     .sub ".circleci/".data,                         -- r"\.circleci/"
     .sub "azure-pipelines".data,                    -- r"azure-pipelines"
     .sub "Jenkinsfile".data,                        -- r"Jenkinsfile"
     .anchorEnd "package.json".data,                 -- r"package\.json$"
     .anchorEnd "requirements.txt".data,             -- r"requirements\.txt$"
     .anchorEnd "setup.py".data,                     -- r"setup\.py$"
     .anchorEnd "pyproject.toml".data,               -- r"pyproject\.toml$"
     .anchorEnd "go.mod".data,                       -- r"go\.mod$"
     .anchorEnd "Cargo.toml".data,                   -- r"Cargo\.toml$"
     .anchorEnd "pom.xml".data,                      -- r"pom\.xml$"
     .sub "build.gradle".data]

/-- `FileCategorizer.CATEGORY_PATTERNS[STYLE]`. -/
def STYLE_PATS : List Pat :=
  [.anchorEnd ".css".data,                         -- r"\.css$"
     .anchorEnd ".scss".data,                        -- r"\.scss$"
     .anchorEnd ".sass".data,                        -- r"\.sass$"
     .anchorEnd ".less".data,                        -- r"\.less$"
     .sub ".styled.".data]

/-- `FileCategorizer.CATEGORY_PATTERNS` (dict iteration order is the
literal order: TEST, DOCS, CONFIG, BUILD, STYLE). -/
def CATEGORY_PATTERNS : List (FileCategory × List Pat) :=
  [(.TEST, TEST_PATS), (.DOCS, DOCS_PATS), (.CONFIG, CONFIG_PATS),
   (.BUILD, BUILD_PATS), (.STYLE, STYLE_PATS)]

/-- `FileCategorizer.SOURCE_EXTENSIONS`. -/
def SOURCE_EXTENSIONS : List Str :=
  [".py".data, ".js".data, ".ts".data, ".jsx".data, ".tsx".data, ".java".data,
   ".go".data, ".rs".data, ".c".data, ".cpp".data, ".h".data, ".hpp".data,
   ".cs".data, ".rb".data, ".php".data, ".swift".data, ".kt".data, ".scala".data,
   ".clj".data, ".ex".data, ".exs".data, ".erl".data, ".hs".data]

/-- `FileCategorizer.categorize`. -/
def categorize (file_path : Str) : FileCategory :=
  match CATEGORY_PATTERNS.findSome? (fun cp =>
    if cp.2.any (fun p => searchCI p file_path) then some cp.1 else none) with
  | some category => category
  | none =>
    if SOURCE_EXTENSIONS.contains (lower (splitextExt file_path)) then .SOURCE
    else .OTHER

/-- `ComponentDetector` skip set. -/
def skipDirs : List Str :=
  ["src".data, "lib".data, "pkg".data, "app".data, "internal".data, "cmd".data]

/-- The scanning loop of `ComponentDetector._extract_component`
(`for i, part in enumerate(parts)`, with its two `return` sites): `n` is
`len(parts)`, `i` the enumeration index, and the third argument the
suffix of `parts` still to visit, whose head is `parts[i]`; in the first
return site `parts[i + 1]` is that suffix's second element, which exists
because `i + 1 < n - 1`. -/
def extractGo (n : Nat) : Nat → List Str → Option Str
  | _, [] => none
  | i, part :: rem =>
    if skipDirs.contains (lower part) then
      if i + 1 < n - 1 then some (rem.headD []) else extractGo n (i + 1) rem
    else if !(part = ".".data || part = "..".data) && i < n - 1 then some part
    else extractGo n (i + 1) rem

/-- `ComponentDetector._extract_component`. -/
def extract_component (path : Str) : Str :=
  let parts := splitOnChar '/' path
  match extractGo parts.length 0 parts with
  | some c => c
  | none =>
    match parts.getLast? with
    | some lastPart => splitextRoot lastPart
    | none => "root".data

/-- Insertion-ordered grouping, as Python `dict` building with
`components[k].append(x)`. -/
def insertGrouped {κ α : Type} [DecidableEq κ] (acc : List (κ × List α)) (k : κ) (a : α) :
    List (κ × List α) :=
  if acc.any (fun p => p.1 = k) then
    acc.map (fun p => if p.1 = k then (p.1, p.2 ++ [a]) else p)
  else acc ++ [(k, [a])]

/-- Group a list by a key, preserving first-seen key order. -/
def groupByKey {κ α : Type} [DecidableEq κ] (key : α → κ) (xs : List α) :
    List (κ × List α) :=
  xs.foldl (fun acc a => insertGrouped acc (key a) a) []

/-- `ComponentDetector.detect_component`. -/
def detect_component (file_paths : List Str) : List (Str × List Str) :=
  groupByKey extract_component file_paths

/-- `CommitTypeDetector.TYPE_PATTERNS` (dict iteration order: DOCS, TEST,
CI, BUILD, STYLE, CHORE). -/
def TYPE_PATTERNS : List (CommitType × List Pat) :=
  [(.DOCS,
    [.anchorEnd ".md".data,                          -- r"\.md$"
     .anchorEnd ".rst".data,                         -- r"\.rst$"
     .anchorEnd ".txt".data,                         -- r"\.txt$"
     .alt (.anchorStart "docs/".data) (.anchorStart "doc/".data),  -- r"^docs?/"
     .sub "README".data,                             -- r"README"
     .sub "LICENSE".data,                            -- r"LICENSE"
     .sub "CHANGELOG".data]),                        -- r"CHANGELOG"
   (.TEST,
    [.alt (.sub "tests/".data) (.alt (.sub "test_/".data) (.sub "test/".data)),  -- r"test[s_]?/"
     .sub "_test.".data,                             -- r"_test\."
     .sub ".test.".data,                             -- r"\.test\."
     .sub ".spec.".data,                             -- r"\.spec\."
     .sub "__tests__/".data]),                       -- r"__tests__/"
   (.CI,
    [.sub ".github/".data,                           -- r"\.github/"
     .sub ".gitlab-ci".data,                         -- r"\.gitlab-ci"
     .sub "Jenkinsfile".data,                        -- r"Jenkinsfile"
     .sub ".travis".data,                            -- r"\.travis"
     .sub ".circleci/".data,                         -- r"\.circleci/"
     .sub "azure-pipelines".data]),                  -- r"azure-pipelines"
   (.BUILD,
    [.anchorEnd "package.json".data,                 -- r"package\.json$"
     .anchorEnd "package-lock.json".data,            -- r"package-lock\.json$"
     .anchorEnd "yarn.lock".data,                    -- r"yarn\.lock$"
     .anchorEnd "requirements.txt".data,             -- r"requirements\.txt$"
     .anchorEnd "setup.py".data,                     -- r"setup\.py$"
     .anchorEnd "pyproject.toml".data,               -- r"pyproject\.toml$"
     .anchorEnd "Makefile".data,                     -- r"Makefile$"
     .sub "Dockerfile".data,                         -- r"Dockerfile"
     .sub "docker-compose".data,                     -- r"docker-compose"
     .sub ".gradle".data,                            -- r"\.gradle"
     .anchorEnd "pom.xml".data]),                    -- r"pom\.xml$"
   (.STYLE,
    [.anchorEnd ".css".data,                         -- r"\.css$"
     .anchorEnd ".scss".data,                        -- r"\.scss$"
     .anchorEnd ".less".data,                        -- r"\.less$"
     .sub ".styled.".data]),                         -- r"\.styled\."
   (.CHORE,
    [.anchorEnd ".gitignore".data,                   -- r"\.gitignore$"
     .anchorEnd ".editorconfig".data,                -- r"\.editorconfig$"
     .sub ".prettierrc".data,                        -- r"\.prettierrc"
     .sub ".eslintrc".data,                          -- r"\.eslintrc"
     .anchorEnd "tsconfig.json".data])]              -- r"tsconfig\.json$"

/-- `CommitTypeDetector.detect_type`.  The first phase counts, for each
commit type in table order, the files matching one of its patterns
(case-insensitively); a dict entry appears at its first increment, so
`type_matches` iterates in table order restricted to nonzero counts, and
`max(type_matches, key=type_matches.get)` returns the first key with the
maximal count.  The `new_files` fallback scan uses `re.search` without
`re.IGNORECASE`, hence the case-sensitive `Pat.search` there.  Python's
`new_files > len(file_paths) / 2` is float division, i.e.
`2 * new_files > len(file_paths)`. -/
def detect_type (file_paths : List Str) (diff_content : Option Str) : CommitType :=
  if file_paths.isEmpty then .CHORE
  else
    let type_matches : List (CommitType × Nat) :=
      TYPE_PATTERNS.foldl (fun acc cp =>
        let cnt := (file_paths.filter (fun path => cp.2.any (fun p => searchCI p path))).length
        if cnt > 0 then acc ++ [(cp.1, cnt)] else acc) []
    match type_matches with
    | m :: ms => (ms.foldl (fun best x => if x.2 > best.2 then x else best) m).1
    | [] =>
      let byContent : Option CommitType :=
        match diff_content with
        | some dc =>
          if dc.isEmpty then none
          else
            let cl := lower dc
            if ["fix", "bug", "issue", "error", "crash"].any
                (fun w => containsSub cl w.data) then some .FIX
            else if ["add", "new", "feature", "implement"].any
                (fun w => containsSub cl w.data) then some .FEAT
            else if ["refactor", "rename", "move", "restructure"].any
                (fun w => containsSub cl w.data) then some .REFACTOR
            else if ["performance", "optimize", "speed", "cache"].any
                (fun w => containsSub cl w.data) then some .PERF
            else none
        | none => none
      match byContent with
      | some t => t
      | none =>
        let new_files := (file_paths.filter (fun p =>
          containsSub (lower p) "new".data ||
          !(TYPE_PATTERNS.any (fun cp => cp.2.any (fun pat => pat.search p))))).length
        if 2 * new_files > file_paths.length then .FEAT else .REFACTOR

/-- `SplitGroup` dataclass. -/
structure SplitGroup where
  name : Str
  description : Str
  files : List FileChange
  category : FileCategory
  suggested_type : CommitType
  total_additions : Nat
  total_deletions : Nat
  rationale : Str
deriving DecidableEq

/-- `SplitGroup.total_lines`. -/
def SplitGroup.total_lines (g : SplitGroup) : Nat := g.total_additions + g.total_deletions

/-- `SplitGroup.file_count`. -/
def SplitGroup.file_count (g : SplitGroup) : Nat := g.files.length

/-- `SplitProposal` dataclass. -/
structure SplitProposal where
  should_split : Bool
  groups : List SplitGroup
  rationale : Str
  original_metrics : ChangeMetrics
deriving DecidableEq

/-- `SplitProposal.total_commits`. -/
def SplitProposal.total_commits (p : SplitProposal) : Nat :=
  if p.should_split then p.groups.length else 1

/-- The set {SOURCE, TEST, DOCS} of "unrelated" categories. -/
def unrelatedCategories : Finset FileCategory :=
  {FileCategory.SOURCE, FileCategory.TEST, FileCategory.DOCS}

/-- `CommitSplitter._should_split` (`max_commit_size`/`complexity_threshold`
are the constructor parameters, default 200/50; the Python `set` of
categories is modelled as a `Finset`). -/
def should_split (max_commit_size complexity_threshold : Nat)
    (staged : StagedChanges) (metrics : ChangeMetrics) : Bool :=
  let total_lines := staged.total_additions + staged.total_deletions
  if total_lines > max_commit_size then true
  else if metrics.complexity_score > complexity_threshold then true
  else
    let categories := (staged.files.map (fun f => categorize f.file_path)).toFinset
    if 2 ≤ (categories ∩ unrelatedCategories).card then true
    else false

/-- `CommitSplitter._create_group`. -/
def create_group (files : List FileChange) (category : FileCategory)
    (component_name : Option Str) : SplitGroup :=
  let file_paths := files.map (fun f => f.file_path)
  { name := match component_name with
      | some comp => categoryValue category ++ ": ".data ++ comp
      | none => categoryValue category,
    description := match component_name with
      | some comp => "Changes to ".data ++ comp ++ " (".data ++ categoryValue category ++ ")".data
      | none => pyTitle (categoryValue category) ++ " changes".data,
    files := files,
    category := category,
    suggested_type := detect_type file_paths none,
    total_additions := (files.map (fun f => f.additions)).sum,
    total_deletions := (files.map (fun f => f.deletions)).sum,
    rationale :=
      if category = .TEST then
        "Test files should be committed separately to clearly identify test changes.".data
      else if category = .DOCS then
        "Documentation changes should be in their own commit for clear history.".data
      else if category = .CONFIG then
        "Configuration changes may need separate review and rollback capability.".data
      else if category = .BUILD then
        "Build/CI changes should be isolated for easier debugging of build issues.".data
      else
        "Group of related ".data ++ categoryValue category ++ " changes.".data }

/-- `CommitSplitter._split_by_component` (`file_map` is a dict keyed by
path, so a duplicated path resolves to its last `FileChange`). -/
def split_by_component (files : List FileChange) (category : FileCategory) :
    List SplitGroup :=
  let file_paths := files.map (fun f => f.file_path)
  let fileMapGet := fun (p : Str) =>
    (files.reverse.find? (fun f => f.file_path == p)).getD
      { file_path := p, status := [], additions := 0, deletions := 0,
        is_binary := false, old_path := none }
  (detect_component file_paths).map (fun cp =>
    create_group (cp.2.map fileMapGet) category (some cp.1))

/-- `CommitSplitter._sort_groups` priority table. -/
def priorityOf : FileCategory → Nat
  | .BUILD => 0
  | .CONFIG => 1
  | .SOURCE => 2
  | .STYLE => 3
  | .TEST => 4
  | .DOCS => 5
  | .OTHER => 6

/-- `CommitSplitter._sort_groups`: Python's stable `sorted` by a key
ranging over {0,...,6} equals concatenating the priority classes in
increasing key order. -/
def sort_groups (groups : List SplitGroup) : List SplitGroup :=
  (List.range 7).flatMap (fun k => groups.filter (fun g => priorityOf g.category = k))

/-- `CommitSplitter._generate_groups`. -/
def generate_groups (staged : StagedChanges) : List SplitGroup :=
  let category_files := groupByKey (fun f => categorize f.file_path) staged.files
  let groups := category_files.foldl (fun acc cf =>
    if cf.2.isEmpty then acc
    else if cf.1 = .SOURCE && cf.2.length > 5 then acc ++ split_by_component cf.2 cf.1
    else acc ++ [create_group cf.2 cf.1 none]) []
  sort_groups groups

/-- `", ".join(xs)`. -/
def joinCommaSpace (xs : List Str) : Str := (xs.intersperse (", ".data)).flatten

/-- `CommitSplitter._generate_rationale` (`set(...)` iteration order is
implementation-defined in Python; it is modelled as first-occurrence
order, which no claim depends on). -/
def generate_rationale (max_commit_size complexity_threshold : Nat)
    (metrics : ChangeMetrics) (groups : List SplitGroup) : Str :=
  let reasons : List Str :=
    (if metrics.total_lines_changed > max_commit_size then
      ["Total changes (".data ++ natToStr metrics.total_lines_changed ++
       " lines) exceed recommended maximum (".data ++ natToStr max_commit_size ++
       " lines)".data]
     else []) ++
    (if metrics.complexity_score > complexity_threshold then
      ["Complexity score (".data ++ natToStr metrics.complexity_score ++
       ") exceeds threshold (".data ++ natToStr complexity_threshold ++ ")".data]
     else []) ++
    (if groups.length > 2 then
      ["Changes span multiple categories: ".data ++
       joinCommaSpace ((groups.map (fun g => categoryValue g.category)).dedup)]
     else []) ++
    (if metrics.directories_affected > 5 then
      ["Changes affect ".data ++ natToStr metrics.directories_affected ++
       " directories".data]
     else [])
  "Suggested split because:\n".data ++ joinNL (reasons.map (fun r => "  - ".data ++ r))

/-- `CommitSplitter.analyze`. -/
def analyze (max_commit_size complexity_threshold : Nat)
    (staged : StagedChanges) (metrics : ChangeMetrics) : SplitProposal :=
  if !(should_split max_commit_size complexity_threshold staged metrics) then
    { should_split := false, groups := [],
      rationale := "Changes are small enough for a single commit.".data,
      original_metrics := metrics }
  else
    let groups := (generate_groups staged).filter (fun g => g.file_count > 0)
    if groups.length ≤ 1 then
      { should_split := false, groups := [],
        rationale := "All changes belong to a single logical group.".data,
        original_metrics := metrics }
    else
      { should_split := true, groups := groups,
        rationale := generate_rationale max_commit_size complexity_threshold metrics groups,
        original_metrics := metrics }

end Splitter

/-! ## Claims -/

/-- Bucket value attributed to the lines-changed scale by the spec. -/
def bucketLines (lines : Nat) : Nat :=
  if lines > 500 then 50 else if lines > 200 then 30 else if lines > 100 then 15
  else if lines > 50 then 5 else 0

/-- Bucket value attributed to the file-count scale by the spec. -/
def bucketFiles (files : Nat) : Nat :=
  if files > 20 then 30 else if files > 10 then 20 else if files > 5 then 10
  else if files > 2 then 5 else 0

/-- Bucket value attributed to the directories scale by the spec. -/
def bucketDirs (dirs : Nat) : Nat :=
  if dirs > 10 then 20 else if dirs > 5 then 10 else if dirs > 2 then 5 else 0

/-- Bucket value attributed to the distinct-file-types scale by the spec. -/
def bucketTypes (types : Nat) : Nat :=
  if types > 5 then 15 else if types > 3 then 10 else if types > 1 then 5 else 0

/-- Per-file contribution of one enumerated page to the aggregate result. -/
def fileContribMB (f : Jacoco.SourceFileInput) : List Jacoco.MissedBranch :=
  (Jacoco.parse_source_file f.file_path f.class_name f.readResult f.tokenize).1.map
    (fun mb => { mb with file_path := f.rel_path })

/-- Per-file contribution of one enumerated page to the aggregate result. -/
def fileContribUL (f : Jacoco.SourceFileInput) : List Jacoco.UncoveredLine :=
  (Jacoco.parse_source_file f.file_path f.class_name f.readResult f.tokenize).2.map
    (fun ul => { ul with file_path := f.rel_path })

/-- The claim's reading of the categorizer: the category tables tried in
the fixed order TEST, DOCS, CONFIG, BUILD, STYLE with first match
winning, then the source-extension set, then OTHER. -/
def claimCategorize (path : Str) : Splitter.FileCategory :=
  if Splitter.TEST_PATS.any (fun p => Splitter.searchCI p path) then .TEST
  else if Splitter.DOCS_PATS.any (fun p => Splitter.searchCI p path) then .DOCS
  else if Splitter.CONFIG_PATS.any (fun p => Splitter.searchCI p path) then .CONFIG
  else if Splitter.BUILD_PATS.any (fun p => Splitter.searchCI p path) then .BUILD
  else if Splitter.STYLE_PATS.any (fun p => Splitter.searchCI p path) then .STYLE
  else if Splitter.SOURCE_EXTENSIONS.contains (lower (splitextExt path)) then .SOURCE
  else .OTHER

/-- The component-extraction scan exactly as claim C9 words it: a skip
segment that is not second-to-last yields the following segment, and
otherwise the first segment that is neither `.`/`..` nor last is the
component; the filename-without-extension fallback applies only to paths
with no directory component. -/
def claimExtractGo (n : Nat) : Nat → List Str → Option Str
  | _, [] => none
  | i, part :: rem =>
    if Splitter.skipDirs.contains (lower part) && !(decide (i = n - 2)) then
      some (rem.headD [])
    else if !(decide (part = ".".data) || decide (part = "..".data)) &&
            !(decide (i = n - 1)) then some part
    else claimExtractGo n (i + 1) rem

/-- Claim C9's component function (the claim does not define a result when
the scan finds nothing on a path that has a directory component; the
empty string stands for that unspecified case, which the counterexample
does not touch). -/
def claimExtractComponent (path : Str) : Str :=
  let parts := splitOnChar '/' path
  match claimExtractGo parts.length 0 parts with
  | some c => c
  | none => if parts.length ≤ 1 then splitextRoot (parts.getD 0 []) else []

/-- The scan as the code actually behaves, for claim C9 as amended: a skip
segment yields the next segment only when that next segment exists and
is not the last; a skip segment is otherwise passed over (it is never
itself returned); a non-skip segment that is not `.`/`..` and not last
is returned; when the scan finds nothing the component is the final
segment without its extension, whether or not directories are present. -/
def amendedGo : List Str → Option Str
  | [] => none
  | [_] => none
  | p :: q :: rest =>
    if Splitter.skipDirs.contains (lower p) then
      (match rest with
       | [] => amendedGo (q :: rest)
       | _ :: _ => some q)
    else if p = ".".data || p = "..".data then amendedGo (q :: rest)
    else some p

/-- Claim C9 as amended, as a whole-path function. -/
def amendedExtractComponent (path : Str) : Str :=
  let parts := splitOnChar '/' path
  match amendedGo parts with
  | some c => c
  | none =>
    match parts.getLast? with
    | some lastPart => splitextRoot lastPart
    | none => "root".data

/-- The tail of a newline join: each later element prefixed by a newline. -/
def joinTail (ys : List Str) : Str := ys.flatMap (fun y => '\n' :: y)

/-- The score definition is literally the sum of the four buckets. -/
theorem calc_score_eq_buckets (lines files dirs types : Nat) :
    GitOps.calculate_complexity_score lines files dirs types =
      bucketLines lines + bucketFiles files + bucketDirs dirs + bucketTypes types := by
  simp only [GitOps.calculate_complexity_score, bucketLines, bucketFiles, bucketDirs,
    bucketTypes, Nat.zero_add]

/-- Each bucket is monotone. -/
theorem bucketLines_mono (l k : Nat) : bucketLines l ≤ bucketLines (l + k) := by
  unfold bucketLines; split_ifs <;> omega

/-- Each bucket is monotone. -/
theorem bucketFiles_mono (l k : Nat) : bucketFiles l ≤ bucketFiles (l + k) := by
  unfold bucketFiles; split_ifs <;> omega

/-- Each bucket is monotone. -/
theorem bucketDirs_mono (l k : Nat) : bucketDirs l ≤ bucketDirs (l + k) := by
  unfold bucketDirs; split_ifs <;> omega

/-- Each bucket is monotone. -/
theorem bucketTypes_mono (l k : Nat) : bucketTypes l ≤ bucketTypes (l + k) := by
  unfold bucketTypes; split_ifs <;> omega

/-- Claim C7: for all non-negative integers, the computed complexity score
equals the sum of the four bucket values (each scale taking the first
matching threshold from highest down), and increasing any one input
while holding the others fixed never decreases the score. -/
theorem c7_complexity_score_buckets (lines files dirs types k : Nat) :
    GitOps.calculate_complexity_score lines files dirs types =
      bucketLines lines + bucketFiles files + bucketDirs dirs + bucketTypes types ∧
    GitOps.calculate_complexity_score lines files dirs types ≤
      GitOps.calculate_complexity_score (lines + k) files dirs types ∧
    GitOps.calculate_complexity_score lines files dirs types ≤
      GitOps.calculate_complexity_score lines (files + k) dirs types ∧
    GitOps.calculate_complexity_score lines files dirs types ≤
      GitOps.calculate_complexity_score lines files (dirs + k) types ∧
    GitOps.calculate_complexity_score lines files dirs types ≤
      GitOps.calculate_complexity_score lines files dirs (types + k) := by
  refine ⟨calc_score_eq_buckets _ _ _ _, ?_, ?_, ?_, ?_⟩ <;>
    rw [calc_score_eq_buckets, calc_score_eq_buckets] <;>
    [exact Nat.add_le_add (Nat.add_le_add (Nat.add_le_add (bucketLines_mono _ _)
      (Nat.le_refl _)) (Nat.le_refl _)) (Nat.le_refl _);
     exact Nat.add_le_add (Nat.add_le_add (Nat.add_le_add (Nat.le_refl _)
      (bucketFiles_mono _ _)) (Nat.le_refl _)) (Nat.le_refl _);
     exact Nat.add_le_add (Nat.add_le_add (Nat.add_le_add (Nat.le_refl _)
      (Nat.le_refl _)) (bucketDirs_mono _ _)) (Nat.le_refl _);
     exact Nat.add_le_add (Nat.add_le_add (Nat.add_le_add (Nat.le_refl _)
      (Nat.le_refl _)) (Nat.le_refl _)) (bucketTypes_mono _ _)]


/-- Claim C5: the splitter's should-split predicate is true iff (a) total
additions plus deletions exceed `max_commit_size`, or (b) the complexity
score exceeds `complexity_threshold`, or (c) the categories of the
changed files meet {SOURCE, TEST, DOCS} in at least two elements; in
particular a single-file changeset with 10 additions, 5 deletions and
complexity score 5 under the default thresholds (200/50) is not split. -/
theorem c5_should_split_characterization :
    (∀ (mx thr : Nat) (staged : GitOps.StagedChanges) (metrics : GitOps.ChangeMetrics),
      Splitter.should_split mx thr staged metrics = true ↔
        (staged.total_additions + staged.total_deletions > mx ∨
         metrics.complexity_score > thr ∨
         2 ≤ (((staged.files.map (fun f => Splitter.categorize f.file_path)).toFinset ∩
                Splitter.unrelatedCategories).card)))
    ∧ Splitter.should_split 200 50
        { files := [{ file_path := "m.py".data, status := "M".data, additions := 10,
                      deletions := 5, is_binary := false, old_path := none }],
          total_additions := 10, total_deletions := 5, total_files := 1,
          diff_content := [] }
        { total_lines_changed := 15, total_files := 1, files_added := 0,
          files_modified := 1, files_deleted := 0, files_renamed := 0,
          directories_affected := 1, file_types := [(".py".data, 1)],
          complexity_score := 5 } = false := by
  constructor
  · intro mx thr staged metrics
    unfold Splitter.should_split
    dsimp only
    split_ifs with h1 h2 h3
    · exact iff_of_true rfl (Or.inl h1)
    · exact iff_of_true rfl (Or.inr (Or.inl h2))
    · exact iff_of_true rfl (Or.inr (Or.inr h3))
    · exact iff_of_false (by simp) (by push_neg at h1 h2 h3; omega)
  · decide

/-- Claim C10: the proposal returned by `analyze` has a non-empty groups
list exactly when should_split is true: either should_split is false with
an empty groups list (hence total_commits 1), or should_split is true
with at least two groups. -/
theorem c10_proposal_invariant (mx thr : Nat) (staged : GitOps.StagedChanges)
    (metrics : GitOps.ChangeMetrics) :
    ((Splitter.analyze mx thr staged metrics).should_split = false ∧
     (Splitter.analyze mx thr staged metrics).groups = [] ∧
     (Splitter.analyze mx thr staged metrics).total_commits = 1) ∨
    ((Splitter.analyze mx thr staged metrics).should_split = true ∧
     2 ≤ (Splitter.analyze mx thr staged metrics).groups.length) := by
  unfold Splitter.analyze
  dsimp only
  split_ifs with h1 h2
  · exact Or.inl ⟨rfl, rfl, rfl⟩
  · exact Or.inl ⟨rfl, rfl, rfl⟩
  · refine Or.inr ⟨rfl, ?_⟩
    dsimp only
    push_neg at h2
    omega

/-- Claim C6: whenever the trigger predicate fired but grouping leaves at
most one non-empty group, `analyze` overrides the decision: the proposal
has should_split false, no groups, and the rationale "All changes belong
to a single logical group.". -/
theorem c6_single_group_safety_valve (mx thr : Nat) (staged : GitOps.StagedChanges)
    (metrics : GitOps.ChangeMetrics)
    (h1 : Splitter.should_split mx thr staged metrics = true)
    (h2 : ((Splitter.generate_groups staged).filter
            (fun g => g.file_count > 0)).length ≤ 1) :
    Splitter.analyze mx thr staged metrics =
      { should_split := false, groups := [],
        rationale := "All changes belong to a single logical group.".data,
        original_metrics := metrics } := by
  unfold Splitter.analyze
  rw [h1]
  dsimp only
  rw [if_neg (by decide), if_pos h2]

/-- Witness for claim C6: a single 300-line source file trips trigger (a),
grouping yields one group, and `analyze` overrides to no-split with the
safety-valve rationale. -/
theorem c6_single_group_safety_valve_witness :
    Splitter.should_split 200 50
      { files := [{ file_path := "core.py".data, status := "M".data, additions := 300,
                    deletions := 0, is_binary := false, old_path := none }],
        total_additions := 300, total_deletions := 0, total_files := 1,
        diff_content := [] }
      { total_lines_changed := 300, total_files := 1, files_added := 0,
        files_modified := 1, files_deleted := 0, files_renamed := 0,
        directories_affected := 0, file_types := [(".py".data, 1)],
        complexity_score := 35 } = true ∧
    ((Splitter.generate_groups
      { files := [{ file_path := "core.py".data, status := "M".data, additions := 300,
                    deletions := 0, is_binary := false, old_path := none }],
        total_additions := 300, total_deletions := 0, total_files := 1,
        diff_content := [] }).filter (fun g => g.file_count > 0)).length ≤ 1 ∧
    Splitter.analyze 200 50
      { files := [{ file_path := "core.py".data, status := "M".data, additions := 300,
                    deletions := 0, is_binary := false, old_path := none }],
        total_additions := 300, total_deletions := 0, total_files := 1,
        diff_content := [] }
      { total_lines_changed := 300, total_files := 1, files_added := 0,
        files_modified := 1, files_deleted := 0, files_renamed := 0,
        directories_affected := 0, file_types := [(".py".data, 1)],
        complexity_score := 35 } =
      { should_split := false, groups := [],
        rationale := "All changes belong to a single logical group.".data,
        original_metrics :=
          { total_lines_changed := 300, total_files := 1, files_added := 0,
            files_modified := 1, files_deleted := 0, files_renamed := 0,
            directories_affected := 0, file_types := [(".py".data, 1)],
            complexity_score := 35 } } :=
  ⟨by decide, by decide,
   c6_single_group_safety_valve 200 50 _ _ (by decide) (by decide)⟩

/-- Claim C2: a completed line emits a MissedBranch iff the captured class
attribute contains `pc` (with the captured title, or "Partially covered"
when the title is empty, as branch_info), emits an UncoveredLine iff it
contains `nc` ("contains" being Python substring containment, as in the
source's `'pc' in self.current_line_class`), the two checks are
independent, and nothing is emitted for a line whose trimmed text is
empty; in particular a page with a span `id="L5" class="nc"` wrapping
"return null;" yields exactly one UncoveredLine at line 5 with that text
and no MissedBranch. -/
theorem c2_line_classification :
    (∀ s : Jacoco.PState,
      Jacoco.process_line s = { s with
        missed_branches := s.missed_branches ++
          (if !(strip s.current_line_content).isEmpty &&
              containsSub s.current_line_class "pc".data then
            [{ file_path := s.file_path, class_name := s.class_name,
               line_number := s.current_line_number,
               branch_info := if !s.current_line_title.isEmpty then s.current_line_title
                              else "Partially covered".data,
               source_line := strip s.current_line_content }] else []),
        uncovered_lines := s.uncovered_lines ++
          (if !(strip s.current_line_content).isEmpty &&
              containsSub s.current_line_class "nc".data then
            [{ file_path := s.file_path, class_name := s.class_name,
               line_number := s.current_line_number,
               source_line := strip s.current_line_content }] else []) }) ∧
    (Jacoco.runEvents "Foo.java".data "Foo".data
      [.start "pre".data [],
       .start "span".data [("id".data, "L5".data), ("class".data, "nc".data)],
       .data "return null;".data,
       .close "span".data,
       .close "pre".data]).uncovered_lines =
      [{ file_path := "Foo.java".data, class_name := "Foo".data,
         line_number := 5, source_line := "return null;".data }] ∧
    (Jacoco.runEvents "Foo.java".data "Foo".data
      [.start "pre".data [],
       .start "span".data [("id".data, "L5".data), ("class".data, "nc".data)],
       .data "return null;".data,
       .close "span".data,
       .close "pre".data]).missed_branches = [] := by
  refine ⟨?_, by decide, by decide⟩
  intro s
  by_cases he : (strip s.current_line_content).isEmpty
  · simp [Jacoco.process_line, he]
  · by_cases hpc : containsSub s.current_line_class "pc".data
    · by_cases hnc : containsSub s.current_line_class "nc".data
      · simp [Jacoco.process_line, he, hpc, hnc]
      · simp [Jacoco.process_line, he, hpc, hnc]
    · by_cases hnc : containsSub s.current_line_class "nc".data
      · simp [Jacoco.process_line, he, hpc, hnc]
      · simp [Jacoco.process_line, he, hpc, hnc]

/-- Counterexample to claim C3: when `</pre>` arrives while the line span
for `L5` (class `nc`, accumulated text "x") is still open and the
matching `</span>` follows after it, the parser still emits the
UncoveredLine — the span's tracking is not abandoned. -/
theorem c3_counterexample_span_after_pre :
    (Jacoco.runEvents "A.java".data "A".data
      [.start "pre".data [],
       .start "span".data [("id".data, "L5".data), ("class".data, "nc".data)],
       .data "x".data,
       .close "pre".data,
       .close "span".data]).uncovered_lines =
      [{ file_path := "A.java".data, class_name := "A".data,
         line_number := 5, source_line := "x".data }] := by
  decide

/-- Claim C3 as amended: handling `</pre>` only clears the in-pre flag and
leaves all span tracking (including the accumulated content) in place,
so a `</span>` appearing after the `</pre>` still processes the line
using the content accumulated inside the `<pre>` — data arriving between
the `</pre>` and the `</span>` is not accumulated, as the concrete run
shows (the emitted source line is "return", not "return ignored"). -/
theorem c3_amended_pre_close_keeps_tracking :
    (∀ s : Jacoco.PState,
      Jacoco.handle_endtag s "pre".data = { s with in_pre := false }) ∧
    (Jacoco.runEvents "A.java".data "A".data
      [.start "pre".data [],
       .start "span".data [("id".data, "L7".data), ("class".data, "nc".data)],
       .data "return".data,
       .close "pre".data,
       .data " ignored".data,
       .close "span".data]).uncovered_lines =
      [{ file_path := "A.java".data, class_name := "A".data,
         line_number := 7, source_line := "return".data }] := by
  refine ⟨?_, by decide⟩
  intro s
  simp [Jacoco.handle_endtag, show ("pre".data = "span".data) = False by simp]

/-- The aggregation fold appends each file's contribution and never touches
the file counter. -/
theorem analyzeFold_spec (files : List Jacoco.SourceFileInput)
    (acc : Jacoco.JaCoCoAnalysisResult) :
    files.foldl Jacoco.analyzeFileStep acc =
      { acc with
        missed_branches := acc.missed_branches ++ files.flatMap fileContribMB,
        uncovered_lines := acc.uncovered_lines ++ files.flatMap fileContribUL } := by
  induction files generalizing acc with
  | nil => simp
  | cons f fs ih =>
    simp only [List.foldl_cons, ih, Jacoco.analyzeFileStep, List.flatMap_cons,
      fileContribMB, fileContribUL, List.append_assoc]

/-- Claim C4: a page whose read fails, or whose scan errors, yields two
empty lists from `parse_source_file` (no exception escapes), and in the
aggregate report such a file contributes nothing to the missed/uncovered
lists while `total_files_analyzed` equals the count of all enumerated
pages regardless of per-file outcomes. -/
theorem c4_partial_failure_isolation :
    (∀ (srcDir : Str) (files : List Jacoco.SourceFileInput),
      (Jacoco.analyze_jacoco_report srcDir files).total_files_analyzed = files.length) ∧
    (∀ (fp cn : Str) (tok : Str → Except Unit (List Jacoco.HEvent)),
      Jacoco.parse_source_file fp cn none tok = ([], [])) ∧
    (∀ (fp cn content : Str) (tok : Str → Except Unit (List Jacoco.HEvent)),
      tok content = Except.error () →
      Jacoco.parse_source_file fp cn (some content) tok = ([], [])) ∧
    (∀ (srcDir : Str) (files : List Jacoco.SourceFileInput),
      (Jacoco.analyze_jacoco_report srcDir files).missed_branches =
        files.flatMap fileContribMB ∧
      (Jacoco.analyze_jacoco_report srcDir files).uncovered_lines =
        files.flatMap fileContribUL) := by
  refine ⟨?_, ?_, ?_, ?_⟩
  · intro srcDir files
    rw [Jacoco.analyze_jacoco_report, analyzeFold_spec]
  · intro fp cn tok
    rfl
  · intro fp cn content tok h
    simp [Jacoco.parse_source_file, h]
  · intro srcDir files
    rw [Jacoco.analyze_jacoco_report, analyzeFold_spec]
    exact ⟨by simp, by simp⟩

/-- Witness for claim C4: a page whose tokenizer raises contributes two
empty lists. -/
theorem c4_partial_failure_isolation_witness :
    (fun (_ : Str) => (Except.error () : Except Unit (List Jacoco.HEvent))) "x".data =
      Except.error () ∧
    Jacoco.parse_source_file "F.html".data "F".data (some "x".data)
      (fun _ => Except.error ()) = ([], []) :=
  ⟨rfl, c4_partial_failure_isolation.2.2.1 "F.html".data "F".data "x".data
    (fun _ => Except.error ()) rfl⟩

/-- Claim C8: `categorize` is a pure function of the path that tries the
category tables in the fixed order TEST, DOCS, CONFIG, BUILD, STYLE with
first match winning (case-insensitive search), then maps source-code
extensions to SOURCE and everything else to OTHER; in particular
`categorize("tests/test_config.json")` is TEST, not CONFIG. -/
theorem c8_categorize_precedence :
    (∀ path : Str, Splitter.categorize path = claimCategorize path) ∧
    Splitter.categorize "tests/test_config.json".data = .TEST := by
  refine ⟨?_, by decide⟩
  intro path
  unfold Splitter.categorize claimCategorize Splitter.CATEGORY_PATTERNS
  simp only [List.findSome?]
  split_ifs <;> simp_all

/-- Counterexample to claim C9: on "src/a" the code returns "a" (the
skip segment "src" is second-to-last so its rule does not fire, and a
skip segment is never returned by the other branch; the loop finds
nothing and falls back to the filename without extension), while the
claim's scan returns "src" (the first segment that is neither `.`/`..`
nor last). -/
theorem c9_counterexample_src_slash_a :
    Splitter.extract_component "src/a".data = "a".data ∧
    claimExtractComponent "src/a".data = "src".data ∧
    Splitter.extract_component "src/a".data ≠ claimExtractComponent "src/a".data := by
  decide

/-- The code's indexed scan coincides with the index-free amended scan. -/
theorem extractGo_eq_amendedGo :
    ∀ (rem : List Str) (i n : Nat), n = i + rem.length →
      Splitter.extractGo n i rem = amendedGo rem := by
  intro rem
  induction rem with
  | nil => intro i n h; rfl
  | cons part rem ih =>
    intro i n h
    simp only [List.length_cons] at h
    have unf : Splitter.extractGo n i (part :: rem) =
        if Splitter.skipDirs.contains (lower part) then
          (if i + 1 < n - 1 then some (rem.headD []) else Splitter.extractGo n (i + 1) rem)
        else if (!(decide (part = ".".data) || decide (part = "..".data)) &&
                 decide (i < n - 1)) then some part
        else Splitter.extractGo n (i + 1) rem := rfl
    rw [unf]
    cases rem with
    | nil =>
      simp only [List.length_nil] at h
      have h1 : ¬ (i + 1 < n - 1) := by omega
      have h2 : ¬ (i < n - 1) := by omega
      have ea : amendedGo [part] = none := rfl
      have e0 : Splitter.extractGo n (i + 1) ([] : List Str) = none := rfl
      rw [ea]
      by_cases hs : Splitter.skipDirs.contains (lower part) = true
      · rw [if_pos hs, if_neg h1, e0]
      · rw [if_neg hs, if_neg (by simp [h2]), e0]
    | cons q rest =>
      simp only [List.length_cons] at h
      have hq : n = i + 1 + (q :: rest).length := by simp only [List.length_cons]; omega
      by_cases hs : Splitter.skipDirs.contains (lower part) = true
      · cases rest with
        | nil =>
          have h1 : ¬ (i + 1 < n - 1) := by
            simp only [List.length_cons, List.length_nil] at h; omega
          have ea : amendedGo [part, q] =
              if Splitter.skipDirs.contains (lower part) then amendedGo [q]
              else if (decide (part = ".".data) || decide (part = "..".data)) then
                amendedGo [q]
              else some part := rfl
          rw [ea, if_pos hs, if_pos hs, if_neg h1]
          exact ih (i + 1) n hq
        | cons r rs =>
          have h1 : i + 1 < n - 1 := by simp only [List.length_cons] at h; omega
          have ea : amendedGo (part :: q :: r :: rs) =
              if Splitter.skipDirs.contains (lower part) then some q
              else if (decide (part = ".".data) || decide (part = "..".data)) then
                amendedGo (q :: r :: rs)
              else some part := rfl
          rw [ea, if_pos hs, if_pos hs, if_pos h1]
          rfl
      · have ea2 : amendedGo (part :: q :: rest) =
            if Splitter.skipDirs.contains (lower part) then
              (match rest with
               | [] => amendedGo (q :: rest)
               | _ :: _ => some q)
            else if (decide (part = ".".data) || decide (part = "..".data)) then
              amendedGo (q :: rest)
            else some part := by
          cases rest <;> rfl
        rw [ea2, if_neg hs, if_neg hs]
        by_cases hd1 : part = ".".data
        · rw [if_neg (by simp [hd1]), if_pos (by simp [hd1])]
          exact ih (i + 1) n hq
        · by_cases hd2 : part = "..".data
          · rw [if_neg (by simp [hd2]), if_pos (by simp [hd2])]
            exact ih (i + 1) n hq
          · have h2 : i < n - 1 := by omega
            rw [if_pos (by simp [hd1, hd2, h2]), if_neg (by simp [hd1, hd2])]

/-- Claim C9 as amended: scanning segments left to right, a skip-set
segment yields the next segment exactly when that next segment exists
and is not the last (a skip segment is never itself a candidate); a
non-skip segment other than `.`/`..` that is not last is returned; when
the scan returns nothing, the component is the last segment without its
extension regardless of directories; `detect_component` of an empty path
list is an empty mapping. -/
theorem c9_amended_extract_component :
    (∀ path : Str, Splitter.extract_component path = amendedExtractComponent path) ∧
    Splitter.detect_component [] = [] := by
  refine ⟨?_, rfl⟩
  intro path
  unfold Splitter.extract_component amendedExtractComponent
  dsimp only
  rw [extractGo_eq_amendedGo (splitOnChar '/' path) 0 (splitOnChar '/' path).length
    (Nat.zero_add _).symm]

namespace PyStr

/-- `stripRight` never lengthens. -/
theorem length_stripRight_le : ∀ l : Str, (stripRight l).length ≤ l.length := by
  intro l
  induction l with
  | nil => simp [stripRight]
  | cons c t ih =>
    simp only [stripRight]
    cases h : stripRight t with
    | nil => split_ifs <;> simp
    | cons h2 r => rw [h] at ih; simpa using ih

/-- A length-preserving `stripRight` is the identity. -/
theorem stripRight_eq_self_of_length :
    ∀ l : Str, (stripRight l).length = l.length → stripRight l = l := by
  intro l
  induction l with
  | nil => intro _; rfl
  | cons c t ih =>
    intro h
    simp only [stripRight] at h ⊢
    cases ht : stripRight t with
    | nil =>
      rw [ht] at h
      dsimp only at h ⊢
      by_cases hc : pySpace c = true
      · rw [if_pos hc] at h
        simp at h
      · rw [if_neg hc] at h ⊢
        have ht0 : t = [] := by simp at h; exact h
        rw [ht0]
    | cons h2 r =>
      rw [ht] at h
      dsimp only at h ⊢
      simp only [List.length_cons] at h
      have h' : (stripRight t).length = t.length := by
        rw [ht]; simp only [List.length_cons]; omega
      have h2r := ih h'
      rw [ht] at h2r
      rw [h2r]

/-- A length-preserving `dropWhile` is the identity. -/
theorem dropWhile_eq_self_of_length {p : Char → Bool} :
    ∀ l : Str, (l.dropWhile p).length = l.length → l.dropWhile p = l := by
  intro l
  cases l with
  | nil => intro _; rfl
  | cons c t =>
    intro h
    by_cases hc : p c = true
    · exfalso
      simp only [List.dropWhile, hc] at h
      have := (List.dropWhile_suffix p (l := t)).length_le
      simp at h
      omega
    · simp only [List.dropWhile, hc]

/-- A fixed point of `strip` is a fixed point of both one-sided strips. -/
theorem strip_eq_self (l : Str) (h : strip l = l) :
    stripLeft l = l ∧ stripRight l = l := by
  have h1 : (stripRight l).length ≤ l.length := length_stripRight_le l
  have h2 : (strip l).length ≤ (stripRight l).length := by
    unfold strip stripLeft
    exact (List.dropWhile_suffix pySpace).length_le
  rw [h] at h2
  have hr : stripRight l = l := stripRight_eq_self_of_length l (by omega)
  refine ⟨?_, hr⟩
  have := h
  unfold strip at this
  rw [hr] at this
  exact this

/-- Characterize `stripRight` on an append. -/
theorem stripRight_append : ∀ (a b : Str),
    stripRight (a ++ b) =
      if stripRight b = [] then stripRight a else a ++ stripRight b := by
  intro a b
  induction a with
  | nil =>
    simp only [List.nil_append]
    split_ifs with h
    · rw [h]; rfl
    · rfl
  | cons c t ih =>
    by_cases hb : stripRight b = []
    · rw [if_pos hb]
      show stripRight (c :: (t ++ b)) = stripRight (c :: t)
      simp only [stripRight]
      rw [ih, if_pos hb]
    · rw [if_neg hb]
      show stripRight (c :: (t ++ b)) = (c :: t) ++ stripRight b
      simp only [stripRight, List.cons_append]
      rw [ih, if_neg hb]
      have hne : t ++ stripRight b ≠ [] := fun hc => hb (List.append_eq_nil.mp hc).2
      cases h : t ++ stripRight b with
      | nil => exact absurd h hne
      | cons x xs => rfl

/-- `stripRight` is idempotent. -/
theorem stripRight_idem (l : Str) : stripRight (stripRight l) = stripRight l := by
  induction l with
  | nil => rfl
  | cons c t ih =>
    simp only [stripRight]
    cases ht : stripRight t with
    | nil =>
      by_cases hc : pySpace c = true
      · simp [hc, stripRight]
      · simp [hc, stripRight]
    | cons h2 r =>
      rw [ht] at ih
      dsimp only
      show stripRight (c :: h2 :: r) = c :: h2 :: r
      simp only [stripRight] at ih ⊢
      rw [ih]

theorem stripRight_decomp (l : Str) : ∃ w, l = stripRight l ++ w := by
  induction l with
  | nil => exact ⟨[], rfl⟩
  | cons c t ih =>
    obtain ⟨w, hw⟩ := ih
    simp only [stripRight]
    cases ht : stripRight t with
    | nil =>
      by_cases hc : pySpace c = true
      · rw [if_pos hc]
        exact ⟨c :: t, rfl⟩
      · rw [if_neg hc]
        rw [ht] at hw
        exact ⟨w, by rw [List.cons_append, ← hw]⟩
    | cons h2 r =>
      rw [ht] at hw
      exact ⟨w, by rw [List.cons_append, ← hw]⟩

theorem stripLeft_cons_neg {c : Char} (t : Str) (hc : pySpace c = false) :
    stripLeft (c :: t) = c :: t := by
  simp [stripLeft, List.dropWhile, hc]

theorem stripLeft_head {l : Str} {c : Char} {t : Str} (h : stripLeft l = l)
    (he : l = c :: t) : pySpace c = false := by
  subst he
  by_cases hc : pySpace c = true
  · exfalso
    simp only [stripLeft, List.dropWhile, hc] at h
    have := (List.dropWhile_suffix pySpace (l := t)).length_le
    have hlen := congrArg List.length h
    simp at hlen
    omega
  · simpa using hc

theorem takeWhile_append_all {p : Char → Bool} :
    ∀ (a b : Str), (∀ c ∈ a, p c = true) →
      List.takeWhile p (a ++ b) = a ++ List.takeWhile p b := by
  intro a b h
  induction a with
  | nil => rfl
  | cons c t ih =>
    have hc : p c = true := h c (List.mem_cons_self c t)
    simp only [List.cons_append, List.takeWhile_cons, hc, if_true]
    rw [ih (fun d hd => h d (List.mem_cons_of_mem c hd))]

theorem dropWhile_append_all {p : Char → Bool} :
    ∀ (a b : Str), (∀ c ∈ a, p c = true) →
      List.dropWhile p (a ++ b) = List.dropWhile p b := by
  intro a b h
  induction a with
  | nil => rfl
  | cons c t ih =>
    have hc : p c = true := h c (List.mem_cons_self c t)
    simp only [List.cons_append, List.dropWhile_cons, hc, if_true]
    exact ih (fun d hd => h d (List.mem_cons_of_mem c hd))

theorem soc_no_sep {sep : Char} : ∀ l : Str, sep ∉ l → splitOnChar sep l = [l] := by
  intro l
  induction l with
  | nil => intro _; rfl
  | cons c t ih =>
    intro h
    have hc : ¬ (c = sep) := fun he => h (he ▸ List.mem_cons_self c t)
    simp only [splitOnChar, if_neg hc]
    rw [ih (fun hm => h (List.mem_cons_of_mem c hm))]

theorem soc_append {sep : Char} : ∀ (a b : Str), sep ∉ a →
    splitOnChar sep (a ++ sep :: b) = a :: splitOnChar sep b := by
  intro a b h
  induction a with
  | nil => simp [splitOnChar]
  | cons c t ih =>
    have hc : ¬ (c = sep) := fun he => h (he ▸ List.mem_cons_self c t)
    have ih' := ih (fun hm => h (List.mem_cons_of_mem c hm))
    simp only [List.cons_append, splitOnChar, if_neg hc]
    show (match splitOnChar sep (t ++ sep :: b) with
          | [] => [[c]]
          | h :: r => (c :: h) :: r) = (c :: t) :: splitOnChar sep b
    rw [ih']

theorem soc_ne_nil {sep : Char} : ∀ l : Str, splitOnChar sep l ≠ [] := by
  intro l
  cases l with
  | nil => simp [splitOnChar]
  | cons c t =>
    simp only [splitOnChar]
    split_ifs
    · simp
    · cases splitOnChar sep t <;> simp

theorem joinNL_splitNL : ∀ l : Str, joinNL (splitNL l) = l := by
  intro l
  induction l with
  | nil => rfl
  | cons c t ih =>
    simp only [splitNL, splitOnChar] at ih ⊢
    by_cases hc : c = '\n'
    · subst hc
      simp only [if_pos rfl]
      simp only [joinNL, List.intersperse] at ih ⊢
      cases h : splitOnChar '\n' t with
      | nil => exact absurd h (soc_ne_nil t)
      | cons x xs =>
        rw [h] at ih
        simpa [List.flatten] using ih
    · simp only [if_neg hc]
      cases h : splitOnChar '\n' t with
      | nil => exact absurd h (soc_ne_nil t)
      | cons x xs =>
        rw [h] at ih
        simp only [joinNL, List.intersperse] at ih ⊢
        cases xs with
        | nil => simpa [List.flatten] using ih
        | cons y ys =>
          simp only [List.flatten] at ih ⊢
          rw [List.cons_append, ih]

/-- A list starts with itself under any extension. -/
theorem pyStarts_append_self : ∀ (a b : Str), pyStarts (a ++ b) a = true := by
  intro a b
  induction a with
  | nil => cases b <;> rfl
  | cons c t ih => simpa [pyStarts] using ih

theorem pyStarts_append_mono : ∀ (l b p : Str), pyStarts l p = true →
    pyStarts (l ++ b) p = true := by
  intro l
  induction l with
  | nil =>
    intro b p h
    cases p with
    | nil => cases b <;> rfl
    | cons p0 q => simp [pyStarts] at h
  | cons c t ih =>
    intro b p h
    cases p with
    | nil => cases (c :: t) ++ b <;> rfl
    | cons p0 q =>
      simp only [pyStarts, Bool.and_eq_true] at h
      simpa [pyStarts, h.1] using ih b q h.2

theorem pyStarts_take : ∀ (a b p : Str), pyStarts (a ++ b) p = true →
    p.length ≤ a.length → pyStarts a p = true := by
  intro a
  induction a with
  | nil =>
    intro b p h hl
    cases p with
    | nil => rfl
    | cons p0 q => simp at hl
  | cons c t ih =>
    intro b p h hl
    cases p with
    | nil => rfl
    | cons p0 q =>
      simp only [List.cons_append, pyStarts, Bool.and_eq_true] at h ⊢
      simp only [List.length_cons] at hl
      exact ⟨h.1, ih b q h.2 (by omega)⟩

theorem pyStarts_nl_mem : ∀ (a r p : Str), pyStarts (a ++ '\n' :: r) p = true →
    a.length < p.length → '\n' ∈ p := by
  intro a
  induction a with
  | nil =>
    intro r p h hl
    cases p with
    | nil => simp at hl
    | cons p0 q =>
      simp only [List.nil_append, pyStarts, Bool.and_eq_true] at h
      have : p0 = '\n' := by simpa [eq_comm] using h.1
      rw [this]
      exact List.mem_cons_self _ _
  | cons c t ih =>
    intro r p h hl
    cases p with
    | nil => simp at hl
    | cons p0 q =>
      simp only [List.cons_append, pyStarts, Bool.and_eq_true] at h
      simp only [List.length_cons] at hl
      exact List.mem_cons_of_mem _ (ih r q h.2 (by omega))

theorem contains_of_starts : ∀ (l p : Str), pyStarts l p = true →
    containsSub l p = true := by
  intro l p h
  cases l with
  | nil =>
    cases p with
    | nil => rfl
    | cons p0 q => simp [pyStarts] at h
  | cons c t => simp [containsSub, h]

theorem contains_append_left : ∀ (a b p : Str), containsSub a p = true →
    containsSub (a ++ b) p = true := by
  intro a
  induction a with
  | nil =>
    intro b p h
    simp only [containsSub, List.isEmpty_iff] at h
    subst h
    cases b with
    | nil => rfl
    | cons c t => simp [containsSub, pyStarts]
  | cons c t ih =>
    intro b p h
    simp only [containsSub, Bool.or_eq_true] at h ⊢
    rcases h with h | h
    · exact Or.inl (pyStarts_append_mono _ b p h)
    · exact Or.inr (ih b p h)

theorem contains_prefix_false {l l' w p : Str} (h : containsSub l p = false)
    (he : l = l' ++ w) : containsSub l' p = false := by
  by_contra hc
  have : containsSub l' p = true := by
    cases hcc : containsSub l' p
    · exact absurd hcc hc
    · rfl
  have := contains_append_left l' w p this
  rw [← he] at this
  rw [this] at h
  cases h

theorem splitFirst_self (sub rest : Str) (h : sub ≠ []) :
    splitFirst sub (sub ++ rest) = some ([], rest) := by
  cases sub with
  | nil => exact absurd rfl h
  | cons s0 st =>
    simp only [List.cons_append, splitFirst]
    rw [if_pos (by simpa using pyStarts_append_self (s0 :: st) rest)]
    have hd : List.drop (s0 :: st).length ((s0 :: st) ++ rest) = rest :=
      List.drop_left _ _
    exact congrArg (fun x => some (([] : Str), x)) hd

theorem splitFirst_cons_ne {s0 : Char} {st : Str} (c : Char) (t : Str) (hne : ¬ (c = s0)) :
    splitFirst (s0 :: st) (c :: t) =
      (splitFirst (s0 :: st) t).map (fun pr => (c :: pr.1, pr.2)) := by
  simp only [splitFirst]
  rw [if_neg (by simp [pyStarts, hne])]

theorem splitFirst_none_iff (sub : Str) : ∀ l : Str,
    splitFirst sub l = none ↔ containsSub l sub = false := by
  intro l
  induction l with
  | nil =>
    simp only [splitFirst, containsSub]
    split_ifs with h
    · simp [h]
    · constructor
      · intro _
        cases hs : sub.isEmpty
        · rfl
        · exact absurd hs h
      · intro _
        rfl
  | cons c t ih =>
    simp only [splitFirst, containsSub]
    by_cases hps : pyStarts (c :: t) sub = true
    · rw [if_pos hps]
      simp [hps]
    · rw [if_neg hps]
      cases hcc : pyStarts (c :: t) sub
      · simp only [Bool.false_or]
        rw [Option.map_eq_none']
        exact ih
      · exact absurd hcc hps

/-- First-occurrence split through a newline boundary: a pattern with no newline and not occurring before the newline is found after it. -/
theorem splitFirst_junction (sub : Str) (hs : sub ≠ []) (hn : '\n' ∉ sub) :
    ∀ (a rest : Str), containsSub a sub = false →
      splitFirst sub (a ++ '\n' :: rest) =
        (splitFirst sub rest).map (fun pr => (a ++ '\n' :: pr.1, pr.2)) := by
  intro a
  induction a with
  | nil =>
    intro rest _
    cases sub with
    | nil => exact absurd rfl hs
    | cons s0 st =>
      have h0 : ¬ ('\n' = s0) := fun he => hn (he ▸ List.mem_cons_self s0 st)
      rw [List.nil_append, splitFirst_cons_ne '\n' rest h0]
      simp
  | cons c a' ih =>
    intro rest ha
    simp only [containsSub, Bool.or_eq_false_iff] at ha
    cases sub with
    | nil => exact absurd rfl hs
    | cons s0 st =>
      have hps : ¬ pyStarts (c :: (a' ++ '\n' :: rest)) (s0 :: st) = true := by
        intro hp
        by_cases hl : (s0 :: st).length ≤ (c :: a').length
        · have := pyStarts_take (c :: a') ('\n' :: rest) (s0 :: st)
            (by simpa using hp) hl
          rw [ha.1] at this
          simp at this
        · have : (c :: a').length < (s0 :: st).length := by omega
          exact hn (pyStarts_nl_mem (c :: a') rest (s0 :: st) (by simpa using hp) this)
      have step : splitFirst (s0 :: st) ((c :: a') ++ '\n' :: rest) =
          (splitFirst (s0 :: st) (a' ++ '\n' :: rest)).map
            (fun pr => (c :: pr.1, pr.2)) := by
        simp only [List.cons_append, splitFirst]
        split_ifs with h
        · exact absurd h hps
        · rfl
      rw [step, ih rest ha.2, Option.map_map]
      cases splitFirst (s0 :: st) rest <;> simp

theorem contains_nl_append_false (sub a b : Str) (hs : sub ≠ []) (hn : '\n' ∉ sub)
    (ha : containsSub a sub = false) (hb : containsSub b sub = false) :
    containsSub (a ++ '\n' :: b) sub = false := by
  have h1 : splitFirst sub b = none := (splitFirst_none_iff sub b).mpr hb
  have h2 := splitFirst_junction sub hs hn a b ha
  rw [h1] at h2
  exact (splitFirst_none_iff sub _).mp (by simpa using h2)

theorem splitFirst_single (c : Char) : ∀ (d rest : Str), c ∉ d →
    splitFirst [c] (d ++ c :: rest) = some (d, rest) := by
  intro d
  induction d with
  | nil =>
    intro rest _
    simp only [List.nil_append, splitFirst]
    rw [if_pos (by simp [pyStarts])]
    rfl
  | cons e d' ih =>
    intro rest h
    have he : ¬ (e = c) := fun hx => h (hx ▸ List.mem_cons_self e d')
    rw [List.cons_append, splitFirst_cons_ne e (d' ++ c :: rest) he,
      ih rest (fun hm => h (List.mem_cons_of_mem e hm))]
    rfl

theorem splitFirst_single_none (c : Char) : ∀ d : Str, c ∉ d →
    splitFirst [c] d = none := by
  intro d
  induction d with
  | nil => intro _; rfl
  | cons e d' ih =>
    intro h
    have he : ¬ (e = c) := fun hx => h (hx ▸ List.mem_cons_self e d')
    rw [splitFirst_cons_ne e d' he, ih (fun hm => h (List.mem_cons_of_mem e hm))]
    rfl

theorem joinNL_cons : ∀ (ys : List Str) (x : Str), joinNL (x :: ys) = x ++ joinTail ys := by
  intro ys
  induction ys with
  | nil => intro x; simp [joinNL, joinTail, List.intersperse]
  | cons y ys' ih =>
    intro x
    simp only [joinNL, List.intersperse, List.flatten] at ih ⊢
    rw [ih y]
    simp [joinTail, List.flatten]

/-- Facts about the eleven commit type names. -/
theorem tn_facts : ∀ t : ConvCommit.CommitType,
    ConvCommit.CommitType.type_name t ≠ [] ∧
    (∀ c ∈ ConvCommit.CommitType.type_name t, isWordChar c = true) ∧
    '\n' ∉ ConvCommit.CommitType.type_name t ∧
    pySpace ((ConvCommit.CommitType.type_name t).headD ' ') = false ∧
    ConvCommit.CommitType.from_string (ConvCommit.CommitType.type_name t) = some t := by
  intro t
  cases t <;> decide

theorem takeWhile_word_stop (c : Char) (rest : Str) (hc : isWordChar c = false)
    (tn : Str) (htn : ∀ d ∈ tn, isWordChar d = true) :
    List.takeWhile isWordChar (tn ++ c :: rest) = tn ∧
    List.dropWhile isWordChar (tn ++ c :: rest) = c :: rest := by
  constructor
  · rw [PyStr.takeWhile_append_all tn (c :: rest) htn]
    simp [List.takeWhile_cons, hc]
  · rw [PyStr.dropWhile_append_all tn (c :: rest) htn]
    simp [List.dropWhile_cons, hc]

theorem parseHeader_format (t : ConvCommit.CommitType) (sc : Option Str) (br : Bool)
    (fs : Str) (hfs1 : fs ≠ []) (hfs2 : stripLeft fs = fs)
    (hsc : sc = none ∨ ∃ x, sc = some x ∧ x ≠ [] ∧ ')' ∉ x) :
    ConvCommit.parseHeader
      (ConvCommit.CommitType.type_name t ++
       (if ConvCommit.truthy sc then '(' :: (sc.getD [] ++ [')']) else []) ++
       (if br then ['!'] else []) ++ (':' :: ' ' :: fs)) =
      some (ConvCommit.CommitType.type_name t, sc, br, fs) := by
  obtain ⟨h1, h2, h3, h4, h5⟩ := tn_facts t
  have hdw : fs.dropWhile pySpace = fs := hfs2
  have hsp : pySpace ' ' = true := by decide
  rcases hsc with hnone | ⟨x, hx, hxne, hxp⟩
  · subst hnone
    simp only [ConvCommit.truthy, if_false, List.append_nil, Bool.false_eq_true]
    cases br
    · have hts := takeWhile_word_stop ':' (' ' :: fs) (by decide)
        (ConvCommit.CommitType.type_name t) h2
      simp only [if_neg (by simp : ¬ (false = true)), List.append_nil]
      simp only [ConvCommit.parseHeader, hts.1, hts.2]
      simp [pyStarts, h1, hdw, hfs1, List.dropWhile_cons, hsp]
    · have hts := takeWhile_word_stop '!' (':' :: ' ' :: fs) (by decide)
        (ConvCommit.CommitType.type_name t) h2
      rw [if_pos rfl,
        show (ConvCommit.CommitType.type_name t ++ ['!']) ++ (':' :: ' ' :: fs) =
            ConvCommit.CommitType.type_name t ++ '!' :: ':' :: ' ' :: fs by simp]
      simp only [ConvCommit.parseHeader, hts.1, hts.2]
      simp [pyStarts, h1, hdw, hfs1, List.dropWhile_cons, hsp]
  · subst hx
    have hxw : ∀ d ∈ x, (fun c => !decide (c = ')')) d = true := by
      intro d hd
      simp only [Bool.not_eq_true']
      exact decide_eq_false (fun he => hxp (he ▸ hd))
    have hts := takeWhile_word_stop '('
        (x ++ ')' :: ((if br then ['!'] else []) ++ (':' :: ' ' :: fs))) (by decide)
        (ConvCommit.CommitType.type_name t) h2
    suffices h : ConvCommit.parseHeader
        (ConvCommit.CommitType.type_name t ++
          '(' :: (x ++ ')' :: ((if br then ['!'] else []) ++ (':' :: ' ' :: fs)))) =
        some (ConvCommit.CommitType.type_name t, some x, br, fs) by
      rw [← h]
      congr 1
      simp [ConvCommit.truthy, hxne]
    have hinner : List.takeWhile (fun c => !decide (c = ')'))
        (x ++ ')' :: ((if br then ['!'] else []) ++ (':' :: ' ' :: fs))) = x := by
      rw [PyStr.takeWhile_append_all x _ hxw]
      simp [List.takeWhile_cons]
    have hdropx : (x ++ ')' :: ((if br then ['!'] else []) ++ (':' :: ' ' :: fs))).drop
        x.length = ')' :: ((if br then ['!'] else []) ++ (':' :: ' ' :: fs)) :=
      List.drop_left _ _
    have hdropx1 : (x ++ ')' :: ((if br then ['!'] else []) ++ (':' :: ' ' :: fs))).drop
        (x.length + 1) = (if br then ['!'] else []) ++ (':' :: ' ' :: fs) := by
      rw [show x ++ ')' :: ((if br then ['!'] else []) ++ (':' :: ' ' :: fs)) =
          (x ++ [')']) ++ ((if br then ['!'] else []) ++ (':' :: ' ' :: fs)) by simp]
      rw [show x.length + 1 = (x ++ [')']).length by simp]
      exact List.drop_left _ _
    simp only [ConvCommit.parseHeader, hts.1, hts.2]
    rw [if_neg (by simp [h1] : ¬ (ConvCommit.CommitType.type_name t).isEmpty = true)]
    rw [if_pos (by simp [pyStarts] :
      pyStarts ('(' :: (x ++ ')' :: ((if br then ['!'] else []) ++ (':' :: ' ' :: fs)))) ['('] = true)]
    simp only [List.drop_one, List.tail_cons, hinner, hdropx, hdropx1]
    rw [if_neg (by simp [hxne] : ¬ x.isEmpty = true)]
    rw [if_pos (by simp [pyStarts] :
      pyStarts (')' :: ((if br then ['!'] else []) ++ (':' :: ' ' :: fs))) [')'] = true)]
    cases br
    · simp only [if_neg (by simp : ¬ (false = true)), List.nil_append]
      simp [pyStarts, hdw, hfs1, List.dropWhile_cons, hsp]
    · simp only [if_pos rfl, List.cons_append, List.nil_append]
      simp [pyStarts, hdw, hfs1, List.dropWhile_cons, hsp]

open ConvCommit

/-- Strip is the identity on a right-stripped list with a non-space head. -/
theorem strip_cons_fix {c : Char} {t : Str} (hc : pySpace c = false)
    (hr : stripRight (c :: t) = c :: t) : strip (c :: t) = c :: t := by
  unfold strip
  rw [hr]
  exact stripLeft_cons_neg t hc

theorem stripRight_append_fix (a b : Str) (hb : stripRight b = b) (hbne : b ≠ []) :
    stripRight (a ++ b) = a ++ b := by
  rw [stripRight_append, hb, if_neg hbne]

theorem parse_stripped_single (t : CommitType) (sc : Option Str) (br : Bool)
    (fs message header : Str)
    (hph : parseHeader header = some (t.type_name, sc, br, fs))
    (hstrip : strip message = header) (hnl : '\n' ∉ header) (hfs : strip fs = fs) :
    parse message = some ⟨t, sc, fs, none, none, br, none⟩ := by
  have hlines : splitNL (strip message) = [header] := by
    rw [hstrip]
    exact soc_no_sep header hnl
  simp only [parse, hlines]
  rw [hph]
  dsimp only
  rw [(tn_facts t).2.2.2.2]
  dsimp only
  rw [if_neg (by simp : ¬ ([header].length > 2)), hfs]

theorem stripRight_cons_space (c : Char) (l : Str) :
    stripRight (c :: l) = if stripRight l = [] then (if pySpace c = true then [] else [c])
      else c :: stripRight l := by
  simp only [stripRight]
  cases h : stripRight l with
  | nil => simp
  | cons x xs => simp

theorem strip_msg_sections (header M : Str) (hstripH : stripRight header = header)
    (hhead : ∃ c0 h', header = c0 :: h' ∧ pySpace c0 = false) :
    strip (header ++ '\n' :: '\n' :: M) =
      if stripRight M = [] then header else header ++ '\n' :: '\n' :: stripRight M := by
  obtain ⟨c0, h', hh, hc0⟩ := hhead
  unfold strip
  rw [stripRight_append]
  rw [stripRight_cons_space '\n' ('\n' :: M), stripRight_cons_space '\n' M]
  by_cases hM : stripRight M = []
  · rw [if_pos hM]
    simp only [hM, if_pos (by decide : pySpace '\n' = true), if_true]
    rw [hstripH, hh]
    exact stripLeft_cons_neg h' hc0
  · rw [if_neg hM]
    simp only [hM, if_false]
    rw [if_neg (by simp)]
    rw [if_neg (by simp)]
    rw [hh]
    rw [show (c0 :: h') ++ '\n' :: '\n' :: stripRight M =
        c0 :: (h' ++ '\n' :: '\n' :: stripRight M) from rfl]
    rw [stripLeft_cons_neg _ hc0]

theorem lines_sections (header M' : Str) (hnlH : '\n' ∉ header) :
    splitNL (header ++ '\n' :: '\n' :: M') = header :: [] :: splitNL M' := by
  have h1 := @soc_append '\n' header ('\n' :: M') hnlH
  rw [show header ++ '\n' :: '\n' :: M' = header ++ '\n' :: ('\n' :: M') from rfl]
  rw [show splitNL (header ++ '\n' :: ('\n' :: M')) =
      header :: splitNL ('\n' :: M') from h1]
  have : splitNL ('\n' :: M') = [] :: splitNL M' := by
    simp [splitNL, splitOnChar]
  rw [this]

theorem parse_sections_noBC (t : CommitType) (sc : Option Str) (br : Bool)
    (fs header M : Str)
    (hph : parseHeader header = some (t.type_name, sc, br, fs))
    (hstripH : stripRight header = header) (hnlH : '\n' ∉ header)
    (hhead : ∃ c0 h', header = c0 :: h' ∧ pySpace c0 = false)
    (hfs : strip fs = fs)
    (hnc : containsSub (stripRight M) BCMark = false) :
    ∃ c', parse (header ++ '\n' :: '\n' :: M) = some c' ∧ c'.type = t ∧
      c'.scope = sc ∧ c'.subject = fs ∧ c'.breaking = br ∧
      c'.breaking_description = none := by
  have hsm := strip_msg_sections header M hstripH hhead
  by_cases hM : stripRight M = []
  · rw [if_pos hM] at hsm
    exact ⟨_, parse_stripped_single t sc br fs _ header hph hsm hnlH hfs,
      rfl, rfl, rfl, rfl, rfl⟩
  · rw [if_neg hM] at hsm
    have hlines : splitNL (strip (header ++ '\n' :: '\n' :: M)) =
        header :: [] :: splitNL (stripRight M) := by
      rw [hsm]
      exact lines_sections header (stripRight M) hnlH
    have hlen : (header :: [] :: splitNL (stripRight M)).length > 2 := by
      have := @soc_ne_nil '\n' (stripRight M)
      simp only [List.length_cons]
      have : (splitNL (stripRight M)).length ≥ 1 := by
        cases h : splitNL (stripRight M) with
        | nil => exact absurd h (soc_ne_nil _)
        | cons a b => simp
      omega
    have hrem : joinNL (List.drop 2 (header :: [] :: splitNL (stripRight M))) =
        stripRight M := by
      simp only [List.drop]
      exact joinNL_splitNL (stripRight M)
    have hsf : splitFirst BCMark (stripRight M) = none :=
      (splitFirst_none_iff BCMark (stripRight M)).mpr hnc
    simp only [parse, hlines]
    rw [hph]
    dsimp only
    rw [(tn_facts t).2.2.2.2]
    dsimp only
    rw [if_pos hlen]
    rw [show (header :: [] :: splitNL (stripRight M)).getD 1 [] = ([] : Str) from rfl]
    rw [if_pos rfl]
    rw [hrem, hsf, hfs]
    exact ⟨_, rfl, rfl, rfl, rfl, rfl, rfl⟩

theorem head_nonspace_of_strip {d : Str} (hd : strip d = d) (hne : d ≠ []) :
    ∃ c0 t, d = c0 :: t ∧ pySpace c0 = false := by
  obtain ⟨hl, _⟩ := strip_eq_self d hd
  cases h : d with
  | nil => exact absurd h hne
  | cons c0 t =>
    rw [h] at hl
    exact ⟨c0, t, rfl, stripLeft_head hl rfl⟩

theorem parse_sections_BC (t : CommitType) (sc : Option Str)
    (fs header M pre d tail2 : Str)
    (hph : parseHeader header = some (t.type_name, sc, true, fs))
    (hstripH : stripRight header = header) (hnlH : '\n' ∉ header)
    (hhead : ∃ c0 h', header = c0 :: h' ∧ pySpace c0 = false)
    (hfs : strip fs = fs)
    (hsf : splitFirst BCMark (stripRight M) = some (pre, ' ' :: (d ++ tail2)))
    (hdne : d ≠ []) (hdnl : '\n' ∉ d) (hds : strip d = d)
    (hta : stripRight (d ++ tail2) = d ++ tail2)
    (htail : tail2 = [] ∨ ∃ w, tail2 = '\n' :: w) :
    ∃ c', parse (header ++ '\n' :: '\n' :: M) = some c' ∧ c'.type = t ∧
      c'.scope = sc ∧ c'.subject = fs ∧ c'.breaking = true ∧
      c'.breaking_description = some d := by
  have hsm := strip_msg_sections header M hstripH hhead
  have hM : stripRight M ≠ [] := by
    intro h
    rw [h] at hsf
    simp [splitFirst, BCMark] at hsf
  rw [if_neg hM] at hsm
  have hlines : splitNL (strip (header ++ '\n' :: '\n' :: M)) =
      header :: [] :: splitNL (stripRight M) := by
    rw [hsm]
    exact lines_sections header (stripRight M) hnlH
  have hlen : (header :: [] :: splitNL (stripRight M)).length > 2 := by
    simp only [List.length_cons]
    have : (splitNL (stripRight M)).length ≥ 1 := by
      cases h : splitNL (stripRight M) with
      | nil => exact absurd h (soc_ne_nil _)
      | cons a b => simp
    omega
  have hrem : joinNL (List.drop 2 (header :: [] :: splitNL (stripRight M))) =
      stripRight M := by
    simp only [List.drop]
    exact joinNL_splitNL (stripRight M)
  -- strip of the after-part
  obtain ⟨c0, dt, hdc, hdc0⟩ := head_nonspace_of_strip hds hdne
  have hafter : strip (' ' :: (d ++ tail2)) = d ++ tail2 := by
    unfold strip
    rw [stripRight_cons_space ' ' (d ++ tail2), hta]
    rw [if_neg (by simp [hdne])]
    rw [show (' ' :: (d ++ tail2)) = ' ' :: (d ++ tail2) from rfl]
    simp only [stripLeft, List.dropWhile_cons, if_pos (by decide : pySpace ' ' = true)]
    rw [hdc]
    rw [show (c0 :: dt) ++ tail2 = c0 :: (dt ++ tail2) from rfl]
    simp [List.dropWhile_cons, hdc0]
  have hsplit1 : (splitOnceChar '\n' (d ++ tail2)).1 = d ∧
      strip (splitOnceChar '\n' (d ++ tail2)).1 = d := by
    rcases htail with h0 | ⟨w, hw⟩
    · subst h0
      simp only [List.append_nil]
      unfold splitOnceChar
      rw [splitFirst_single_none '\n' d hdnl]
      exact ⟨rfl, hds⟩
    · subst hw
      unfold splitOnceChar
      rw [splitFirst_single '\n' d w hdnl]
      exact ⟨rfl, hds⟩
  simp only [parse, hlines]
  rw [hph]
  dsimp only
  rw [(tn_facts t).2.2.2.2]
  dsimp only
  rw [if_pos hlen]
  rw [show (header :: [] :: splitNL (stripRight M)).getD 1 [] = ([] : Str) from rfl]
  rw [if_pos rfl]
  rw [hrem, hsf]
  dsimp only
  rw [hafter, hsplit1.2, hfs]
  exact ⟨_, rfl, rfl, rfl, rfl, rfl, rfl⟩


/-- Round trip: formatting a well-formed commit and parsing the result recovers
the type, scope, subject, breaking flag and breaking description. -/

theorem parse_format_roundtrip (c : ConventionalCommit)
    (hs1 : c.subject ≠ []) (hs2 : '\n' ∉ c.subject) (hs3 : strip c.subject = c.subject)
    (hsc : c.scope = none ∨ ∃ x, c.scope = some x ∧ x ≠ [] ∧ ')' ∉ x ∧ '\n' ∉ x)
    (hbd1 : c.breaking = false → c.breaking_description = none)
    (hbd2 : c.breaking = true → c.breaking_description = none ∨
      ∃ d, c.breaking_description = some d ∧ d ≠ [] ∧ '\n' ∉ d ∧ strip d = d)
    (hbody : ∀ b, c.body = some b → containsSub b BCMark = false)
    (hfoot : (c.breaking = true ∧ truthy c.breaking_description = true) ∨
      (∀ f, c.footer = some f → containsSub f BCMark = false)) :
    ∃ c', parse c.format = some c' ∧ c'.type = c.type ∧ c'.scope = c.scope ∧
      c'.subject = c.subject ∧ c'.breaking = c.breaking ∧
      c'.breaking_description = c.breaking_description := by
  obtain ⟨t, sc, fs, bodyOpt, footOpt, br, bdOpt⟩ := c
  dsimp only at hs1 hs2 hs3 hsc hbd1 hbd2 hbody hfoot ⊢
  have hsrf : stripRight fs = fs := (strip_eq_self fs hs3).2
  have hslf : stripLeft fs = fs := (strip_eq_self fs hs3).1
  have hph : parseHeader
      (CommitType.type_name t ++
       (if truthy sc then '(' :: (sc.getD [] ++ [')']) else []) ++
       (if br then ['!'] else []) ++ (':' :: ' ' :: fs)) =
      some (CommitType.type_name t, sc, br, fs) := by
    apply parseHeader_format t sc br fs hs1 hslf
    rcases hsc with h | ⟨x, hx, h1, h2, _⟩
    · exact Or.inl h
    · exact Or.inr ⟨x, hx, h1, h2⟩
  set header := CommitType.type_name t ++
      (if truthy sc then '(' :: (sc.getD [] ++ [')']) else []) ++
      (if br then ['!'] else []) ++ (':' :: ' ' :: fs) with hheader
  have hstripH : stripRight header = header := by
    rw [hheader, show CommitType.type_name t ++
        (if truthy sc then '(' :: (sc.getD [] ++ [')']) else []) ++
        (if br then ['!'] else []) ++ (':' :: ' ' :: fs) =
        (CommitType.type_name t ++
         (if truthy sc then '(' :: (sc.getD [] ++ [')']) else []) ++
         (if br then ['!'] else []) ++ [':', ' ']) ++ fs by simp]
    exact stripRight_append_fix _ fs hsrf hs1
  have hnlH : '\n' ∉ header := by
    rw [hheader]
    intro hm
    simp only [List.mem_append, List.mem_cons] at hm
    rcases hm with ((hm | hm) | hm) | hm
    · exact (tn_facts t).2.2.1 hm
    · rcases hsc with h | ⟨x, hx, hxne, hxp, hxnl⟩
      · rw [h] at hm
        simp [truthy] at hm
      · rw [hx] at hm
        simp only [truthy, List.isEmpty_iff, if_pos] at hm
        rw [if_pos (by simp [hxne])] at hm
        simp only [List.mem_cons, Option.getD, List.mem_append] at hm
        rcases hm with hm | (hm | hm)
        · cases hm
        · exact hxnl hm
        · simp at hm
    · cases br
      · simp at hm
      · simp only [if_pos rfl] at hm
        simp at hm
    · rcases hm with hm | hm | hm
      · cases hm
      · cases hm
      · exact hs2 hm
  have hheadH : ∃ c0 h', header = c0 :: h' ∧ pySpace c0 = false := by
    obtain ⟨h1, _, _, h4, _⟩ := tn_facts t
    cases ht : CommitType.type_name t with
    | nil => exact absurd ht h1
    | cons c0 tn' =>
      refine ⟨c0, tn' ++
        (if truthy sc then '(' :: (sc.getD [] ++ [')']) else []) ++
        (if br then ['!'] else []) ++ (':' :: ' ' :: fs), ?_, ?_⟩
      · rw [hheader, ht]
        simp
      · rw [ht] at h4
        simpa using h4
  have hBCne : BCMark ≠ [] := by decide
  have hBCnl : '\n' ∉ BCMark := by decide
  have hCnil : containsSub [] BCMark = false := by decide
  have hstrip_header : strip header = header := by
    obtain ⟨c0, h', hh, hc0⟩ := hheadH
    rw [hh]
    exact strip_cons_fix hc0 (hh ▸ hstripH)
  have hfmt : ConventionalCommit.format ⟨t, sc, fs, bodyOpt, footOpt, br, bdOpt⟩ =
      header ++ joinTail
        ((if truthy bodyOpt then [([] : Str), bodyOpt.getD []] else []) ++
         ((if br && truthy bdOpt then
            [([] : Str), "BREAKING CHANGE: ".data ++ bdOpt.getD []] else []) ++
          (if truthy footOpt then [([] : Str), footOpt.getD []] else []))) := by
    show joinNL _ = _
    rw [← joinNL_cons]
    congr 1
    rw [hheader]
    simp
  rw [hfmt]
  have hbd_of_g2 : (br && truthy bdOpt) = false → bdOpt = none := by
    intro hg
    cases br
    · exact hbd1 rfl
    · simp only [Bool.true_and] at hg
      rcases hbd2 rfl with h | ⟨d, hd, hdne, _, _⟩
      · exact h
      · rw [hd] at hg
        simp [truthy, hdne] at hg
  have hfoot_of_g2 : (br && truthy bdOpt) = false →
      ∀ f, footOpt = some f → containsSub f BCMark = false := by
    intro hg f hf
    rcases hfoot with ⟨hb, hte⟩ | hfact
    · rw [hb] at hg
      simp only [Bool.true_and] at hg
      rw [hte] at hg
      cases hg
    · exact hfact f hf
  by_cases g2 : (br && truthy bdOpt) = true
  · have hbr : br = true := by
      cases br
      · simp at g2
      · rfl
    have htbd : truthy bdOpt = true := by
      rw [hbr] at g2
      simpa using g2
    obtain ⟨d, hd, hdne, hdnl, hds⟩ :
        ∃ d, bdOpt = some d ∧ d ≠ [] ∧ '\n' ∉ d ∧ strip d = d := by
      rcases hbd2 hbr with h | h
      · rw [h] at htbd
        simp [truthy] at htbd
      · exact h
    have hsrd : stripRight d = d := (strip_eq_self d hds).2
    have hbcline : "BREAKING CHANGE: ".data ++ bdOpt.getD [] = BCMark ++ ' ' :: d := by
      rw [hd]
      show "BREAKING CHANGE: ".data ++ d = BCMark ++ ' ' :: d
      rw [show "BREAKING CHANGE: ".data = BCMark ++ [' '] from rfl]
      simp
    rw [if_pos g2, hbcline]
    have hph2 : parseHeader header = some (t.type_name, sc, true, fs) := hbr ▸ hph
    have hbodyD : truthy bodyOpt = true →
        containsSub (bodyOpt.getD []) BCMark = false := by
      intro g1
      cases hbo : bodyOpt with
      | none => rw [hbo] at g1; simp [truthy] at g1
      | some b => simpa [hbo] using hbody b hbo
    by_cases g1 : truthy bodyOpt = true <;> by_cases g3 : truthy footOpt = true
    · -- body and footer
      rw [if_pos g1, if_pos g3]
      have hjt : joinTail ([([] : Str), bodyOpt.getD []] ++
          ([([] : Str), BCMark ++ ' ' :: d] ++ [([] : Str), footOpt.getD []])) =
          '\n' :: '\n' :: (bodyOpt.getD [] ++ '\n' :: ('\n' ::
            ((BCMark ++ ' ' :: d) ++ '\n' :: ('\n' :: footOpt.getD [])))) := by
        simp [joinTail]
      rw [hjt]
      have h2core : ∀ tail2 : Str,
          splitFirst BCMark ('\n' :: (BCMark ++ ' ' :: (d ++ tail2))) =
            some (['\n'], ' ' :: (d ++ tail2)) := by
        intro tail2
        rw [show BCMark = 'B' :: "REAKING CHANGE:".data from rfl] at hBCne ⊢
        rw [splitFirst_cons_ne '\n' _ (by decide)]
        rw [splitFirst_self _ _ hBCne]
        rfl
      by_cases hf2 : stripRight (footOpt.getD []) = []
      · have e1 : stripRight ('\n' :: footOpt.getD []) = [] := by
          rw [stripRight_cons_space, hf2]
          decide
        have e2 : stripRight ('\n' :: ('\n' :: footOpt.getD [])) = [] := by
          rw [stripRight_cons_space, e1]
          decide
        have hsrM : stripRight (bodyOpt.getD [] ++ '\n' :: ('\n' ::
            ((BCMark ++ ' ' :: d) ++ '\n' :: ('\n' :: footOpt.getD [])))) =
            bodyOpt.getD [] ++ '\n' :: ('\n' :: (BCMark ++ ' ' :: d)) := by
          rw [show bodyOpt.getD [] ++ '\n' :: ('\n' ::
              ((BCMark ++ ' ' :: d) ++ '\n' :: ('\n' :: footOpt.getD []))) =
              ((bodyOpt.getD [] ++ ['\n', '\n'] ++ BCMark ++ [' ']) ++ d) ++
                '\n' :: ('\n' :: footOpt.getD []) by simp]
          rw [stripRight_append, e2, if_pos rfl]
          rw [stripRight_append_fix _ d hsrd hdne]
          simp
        have hsf : splitFirst BCMark (stripRight (bodyOpt.getD [] ++ '\n' :: ('\n' ::
            ((BCMark ++ ' ' :: d) ++ '\n' :: ('\n' :: footOpt.getD []))))) =
            some (bodyOpt.getD [] ++ '\n' :: ['\n'], ' ' :: (d ++ [])) := by
          rw [hsrM, splitFirst_junction BCMark hBCne hBCnl _ _ (hbodyD g1)]
          rw [show BCMark ++ ' ' :: d = BCMark ++ ' ' :: (d ++ []) by simp]
          rw [h2core []]
          simp
        obtain ⟨c', hp, e1', e2', e3', e4', e5'⟩ :=
          parse_sections_BC t sc fs header _ (bodyOpt.getD [] ++ '\n' :: ['\n']) d []
            hph2 hstripH hnlH hheadH hs3 hsf hdne hdnl hds (by simpa using hsrd)
            (Or.inl rfl)
        exact ⟨c', hp, e1', e2', e3', by rw [e4', hbr], by rw [e5', hd]⟩
      · have e1 : stripRight ('\n' :: footOpt.getD []) =
            '\n' :: stripRight (footOpt.getD []) := by
          rw [stripRight_cons_space, if_neg hf2]
        have e2 : stripRight ('\n' :: ('\n' :: footOpt.getD [])) =
            '\n' :: ('\n' :: stripRight (footOpt.getD [])) := by
          rw [stripRight_cons_space, e1, if_neg (by simp)]
        have e3 : stripRight ('\n' :: stripRight (footOpt.getD [])) =
            '\n' :: stripRight (footOpt.getD []) := by
          rw [stripRight_cons_space, stripRight_idem, if_neg hf2]
        have e4 : stripRight ('\n' :: ('\n' :: stripRight (footOpt.getD []))) =
            '\n' :: ('\n' :: stripRight (footOpt.getD [])) := by
          rw [stripRight_cons_space, e3, if_neg (by simp)]
        have hsrM : stripRight (bodyOpt.getD [] ++ '\n' :: ('\n' ::
            ((BCMark ++ ' ' :: d) ++ '\n' :: ('\n' :: footOpt.getD [])))) =
            bodyOpt.getD [] ++ '\n' :: ('\n' ::
              (BCMark ++ ' ' :: (d ++ '\n' :: ('\n' :: stripRight (footOpt.getD []))))) := by
          rw [show bodyOpt.getD [] ++ '\n' :: ('\n' ::
              ((BCMark ++ ' ' :: d) ++ '\n' :: ('\n' :: footOpt.getD []))) =
              (bodyOpt.getD [] ++ '\n' :: ('\n' :: (BCMark ++ ' ' :: d))) ++
                '\n' :: ('\n' :: footOpt.getD []) by simp]
          rw [stripRight_append, e2, if_neg (by simp)]
          simp
        have hsf : splitFirst BCMark (stripRight (bodyOpt.getD [] ++ '\n' :: ('\n' ::
            ((BCMark ++ ' ' :: d) ++ '\n' :: ('\n' :: footOpt.getD []))))) =
            some (bodyOpt.getD [] ++ '\n' :: ['\n'],
              ' ' :: (d ++ '\n' :: ('\n' :: stripRight (footOpt.getD [])))) := by
          rw [hsrM, splitFirst_junction BCMark hBCne hBCnl _ _ (hbodyD g1)]
          rw [h2core ('\n' :: ('\n' :: stripRight (footOpt.getD [])))]
          simp
        have hta : stripRight (d ++ '\n' :: ('\n' :: stripRight (footOpt.getD []))) =
            d ++ '\n' :: ('\n' :: stripRight (footOpt.getD [])) :=
          stripRight_append_fix d _ e4 (by simp)
        obtain ⟨c', hp, e1', e2', e3', e4', e5'⟩ :=
          parse_sections_BC t sc fs header _ (bodyOpt.getD [] ++ '\n' :: ['\n']) d
            ('\n' :: ('\n' :: stripRight (footOpt.getD [])))
            hph2 hstripH hnlH hheadH hs3 hsf hdne hdnl hds hta
            (Or.inr ⟨'\n' :: stripRight (footOpt.getD []), rfl⟩)
        exact ⟨c', hp, e1', e2', e3', by rw [e4', hbr], by rw [e5', hd]⟩
    · -- body, no footer
      rw [if_pos g1, if_neg g3, List.append_nil]
      have hjt : joinTail ([([] : Str), bodyOpt.getD []] ++ [([] : Str), BCMark ++ ' ' :: d]) =
          '\n' :: '\n' :: (bodyOpt.getD [] ++ '\n' :: ('\n' :: (BCMark ++ ' ' :: d))) := by
        simp [joinTail]
      rw [hjt]
      have hsrM : stripRight (bodyOpt.getD [] ++ '\n' :: ('\n' :: (BCMark ++ ' ' :: d))) =
          bodyOpt.getD [] ++ '\n' :: ('\n' :: (BCMark ++ ' ' :: d)) := by
        rw [show bodyOpt.getD [] ++ '\n' :: ('\n' :: (BCMark ++ ' ' :: d)) =
            (bodyOpt.getD [] ++ '\n' :: '\n' :: (BCMark ++ [' '])) ++ d by simp]
        exact stripRight_append_fix _ d hsrd hdne
      have h2 : splitFirst BCMark ('\n' :: (BCMark ++ ' ' :: d)) =
          some (['\n'], ' ' :: d) := by
        rw [show BCMark = 'B' :: "REAKING CHANGE:".data from rfl] at hBCne ⊢
        rw [splitFirst_cons_ne '\n' _ (by decide)]
        rw [splitFirst_self _ _ hBCne]
        rfl
      have hsf : splitFirst BCMark
          (stripRight (bodyOpt.getD [] ++ '\n' :: ('\n' :: (BCMark ++ ' ' :: d)))) =
          some (bodyOpt.getD [] ++ '\n' :: ['\n'], ' ' :: (d ++ [])) := by
        rw [hsrM, splitFirst_junction BCMark hBCne hBCnl _ _ (hbodyD g1), h2]
        simp
      obtain ⟨c', hp, e1, e2, e3, e4, e5⟩ :=
        parse_sections_BC t sc fs header _ (bodyOpt.getD [] ++ '\n' :: ['\n']) d []
          hph2 hstripH hnlH hheadH hs3 hsf hdne hdnl hds (by simpa using hsrd)
          (Or.inl rfl)
      exact ⟨c', hp, e1, e2, e3, by rw [e4, hbr], by rw [e5, hd]⟩
    · -- footer only, no body
      rw [if_neg g1, List.nil_append, if_pos g3]
      have hjt : joinTail ([([] : Str), BCMark ++ ' ' :: d] ++ [([] : Str), footOpt.getD []]) =
          '\n' :: '\n' :: ((BCMark ++ ' ' :: d) ++ '\n' :: ('\n' :: footOpt.getD [])) := by
        simp [joinTail]
      rw [hjt]
      by_cases hf2 : stripRight (footOpt.getD []) = []
      · have e1 : stripRight ('\n' :: footOpt.getD []) = [] := by
          rw [stripRight_cons_space, hf2]
          decide
        have e2 : stripRight ('\n' :: ('\n' :: footOpt.getD [])) = [] := by
          rw [stripRight_cons_space, e1]
          decide
        have hsrM : stripRight ((BCMark ++ ' ' :: d) ++ '\n' :: ('\n' :: footOpt.getD [])) =
            BCMark ++ ' ' :: d := by
          rw [stripRight_append, e2, if_pos rfl]
          rw [show BCMark ++ ' ' :: d = (BCMark ++ [' ']) ++ d by simp]
          exact stripRight_append_fix _ d hsrd hdne
        have hsf : splitFirst BCMark
            (stripRight ((BCMark ++ ' ' :: d) ++ '\n' :: ('\n' :: footOpt.getD []))) =
            some ([], ' ' :: (d ++ [])) := by
          rw [hsrM]
          rw [show BCMark ++ ' ' :: d = BCMark ++ ' ' :: (d ++ []) by simp]
          exact splitFirst_self _ _ hBCne
        obtain ⟨c', hp, e1', e2', e3', e4', e5'⟩ :=
          parse_sections_BC t sc fs header _ [] d [] hph2 hstripH hnlH hheadH hs3 hsf
            hdne hdnl hds (by simpa using hsrd) (Or.inl rfl)
        exact ⟨c', hp, e1', e2', e3', by rw [e4', hbr], by rw [e5', hd]⟩
      · have e1 : stripRight ('\n' :: footOpt.getD []) =
            '\n' :: stripRight (footOpt.getD []) := by
          rw [stripRight_cons_space, if_neg hf2]
        have e2 : stripRight ('\n' :: ('\n' :: footOpt.getD [])) =
            '\n' :: ('\n' :: stripRight (footOpt.getD [])) := by
          rw [stripRight_cons_space, e1, if_neg (by simp)]
        have e3 : stripRight ('\n' :: stripRight (footOpt.getD [])) =
            '\n' :: stripRight (footOpt.getD []) := by
          rw [stripRight_cons_space, stripRight_idem, if_neg hf2]
        have e4 : stripRight ('\n' :: ('\n' :: stripRight (footOpt.getD []))) =
            '\n' :: ('\n' :: stripRight (footOpt.getD [])) := by
          rw [stripRight_cons_space, e3, if_neg (by simp)]
        have hsrM : stripRight ((BCMark ++ ' ' :: d) ++ '\n' :: ('\n' :: footOpt.getD [])) =
            BCMark ++ ' ' :: (d ++ '\n' :: ('\n' :: stripRight (footOpt.getD []))) := by
          rw [stripRight_append, e2, if_neg (by simp)]
          simp
        have hsf : splitFirst BCMark
            (stripRight ((BCMark ++ ' ' :: d) ++ '\n' :: ('\n' :: footOpt.getD []))) =
            some ([], ' ' :: (d ++ '\n' :: ('\n' :: stripRight (footOpt.getD [])))) := by
          rw [hsrM]
          exact splitFirst_self _ _ hBCne
        have hta : stripRight (d ++ '\n' :: ('\n' :: stripRight (footOpt.getD []))) =
            d ++ '\n' :: ('\n' :: stripRight (footOpt.getD [])) :=
          stripRight_append_fix d _ e4 (by simp)
        obtain ⟨c', hp, e1', e2', e3', e4', e5'⟩ :=
          parse_sections_BC t sc fs header _ [] d
            ('\n' :: ('\n' :: stripRight (footOpt.getD [])))
            hph2 hstripH hnlH hheadH hs3 hsf hdne hdnl hds hta
            (Or.inr ⟨'\n' :: stripRight (footOpt.getD []), rfl⟩)
        exact ⟨c', hp, e1', e2', e3', by rw [e4', hbr], by rw [e5', hd]⟩
    · -- no body, no footer
      rw [if_neg g1, List.nil_append, if_neg g3, List.append_nil]
      have hjt : joinTail [([] : Str), BCMark ++ ' ' :: d] =
          '\n' :: '\n' :: (BCMark ++ ' ' :: d) := by
        simp [joinTail]
      rw [hjt]
      have hsrM : stripRight (BCMark ++ ' ' :: d) = BCMark ++ ' ' :: d := by
        rw [show BCMark ++ ' ' :: d = (BCMark ++ [' ']) ++ d by simp]
        exact stripRight_append_fix _ d hsrd hdne
      have hsf : splitFirst BCMark (stripRight (BCMark ++ ' ' :: d)) =
          some ([], ' ' :: (d ++ [])) := by
        rw [hsrM]
        rw [show BCMark ++ ' ' :: d = BCMark ++ ' ' :: (d ++ []) by simp]
        exact splitFirst_self _ _ hBCne
      obtain ⟨c', hp, e1, e2, e3, e4, e5⟩ :=
        parse_sections_BC t sc fs header _ [] d [] hph2 hstripH hnlH hheadH hs3 hsf
          hdne hdnl hds (by simpa using hsrd) (Or.inl rfl)
      exact ⟨c', hp, e1, e2, e3, by rw [e4, hbr], by rw [e5, hd]⟩
  · have hg2f : (br && truthy bdOpt) = false := by
      cases h : (br && truthy bdOpt)
      · rfl
      · exact absurd h g2
    have hbdn : bdOpt = none := hbd_of_g2 hg2f
    rw [if_neg g2, List.nil_append]
    have hbodyD : truthy bodyOpt = true →
        containsSub (bodyOpt.getD []) BCMark = false := by
      intro g1
      cases hbo : bodyOpt with
      | none => rw [hbo] at g1; simp [truthy] at g1
      | some b => simpa [hbo] using hbody b hbo
    have hfootD : truthy footOpt = true →
        containsSub (footOpt.getD []) BCMark = false := by
      intro g3
      cases hfo : footOpt with
      | none => rw [hfo] at g3; simp [truthy] at g3
      | some f => simpa [hfo] using hfoot_of_g2 hg2f f hfo
    rw [hbdn]
    by_cases g1 : truthy bodyOpt = true <;> by_cases g3 : truthy footOpt = true
    · -- body and footer
      rw [if_pos g1, if_pos g3]
      have hjt : joinTail ([([] : Str), bodyOpt.getD []] ++ [([] : Str), footOpt.getD []]) =
          '\n' :: '\n' :: (bodyOpt.getD [] ++ '\n' :: ('\n' :: footOpt.getD [])) := by
        simp [joinTail]
      rw [hjt]
      have hM : containsSub (bodyOpt.getD [] ++ '\n' :: ('\n' :: footOpt.getD [])) BCMark
          = false := by
        apply contains_nl_append_false _ _ _ hBCne hBCnl (hbodyD g1)
        exact contains_nl_append_false BCMark [] _ hBCne hBCnl hCnil (hfootD g3)
      obtain ⟨c', hp, h1, h2, h3, h4, h5⟩ :=
        parse_sections_noBC t sc br fs header _ hph hstripH hnlH hheadH hs3
          (contains_prefix_false (l := bodyOpt.getD [] ++ '\n' :: ('\n' :: footOpt.getD []))
            hM (stripRight_decomp _).choose_spec)
      exact ⟨c', hp, h1, h2, h3, h4, h5⟩
    · -- body only
      rw [if_pos g1, if_neg g3, List.append_nil]
      have hjt : joinTail [([] : Str), bodyOpt.getD []] =
          '\n' :: '\n' :: (bodyOpt.getD [] ++ []) := by
        simp [joinTail]
      rw [hjt, List.append_nil]
      exact parse_sections_noBC t sc br fs header _ hph hstripH hnlH hheadH hs3
        (contains_prefix_false (hbodyD g1) (stripRight_decomp _).choose_spec)
    · -- footer only
      rw [if_neg g1, List.nil_append, if_pos g3]
      have hjt : joinTail [([] : Str), footOpt.getD []] =
          '\n' :: '\n' :: (footOpt.getD [] ++ []) := by
        simp [joinTail]
      rw [hjt, List.append_nil]
      exact parse_sections_noBC t sc br fs header _ hph hstripH hnlH hheadH hs3
        (contains_prefix_false (hfootD g3) (stripRight_decomp _).choose_spec)
    · -- no sections
      rw [if_neg g1, List.nil_append, if_neg g3]
      have hjt : joinTail ([] : List Str) = [] := rfl
      rw [hjt, List.append_nil]
      exact ⟨_, parse_stripped_single t sc br fs header header hph hstrip_header hnlH hs3,
        rfl, rfl, rfl, rfl, rfl⟩


/-- Claim C1 fails as stated: the formatter accepts an empty subject, and
the produced message `"feat:"` (after stripping) has no subject text, so
the parser's header pattern rejects it and `parse` returns `none`. -/
theorem c1_counterexample_empty_subject :
    parse (create_commit_message CommitType.FEAT [] none none none false none) = none := by
  decide

/-- Claim C1 as amended: the round trip holds for formatter inputs whose
formatted subject is nonempty, single-line and already stripped, whose
scope (when given) is nonempty without `)` or newlines, whose breaking
description (when given with `breaking`) is nonempty, single-line and
stripped, whose formatted body does not contain `BREAKING CHANGE:`, and
whose footer either follows a truthy breaking description or does not
contain `BREAKING CHANGE:`: then `parse` of the created message succeeds
and recovers the type, scope, formatted subject, breaking flag and
breaking description. -/
theorem c1_amended_create_parse_roundtrip (ct : CommitType) (subject : Str)
    (scope body footer : Option Str) (breaking : Bool) (bd : Option Str)
    (hs1 : format_subject subject ≠ [])
    (hs2 : '\n' ∉ format_subject subject)
    (hs3 : strip (format_subject subject) = format_subject subject)
    (hsc : scope = none ∨ ∃ x, scope = some x ∧ x ≠ [] ∧ ')' ∉ x ∧ '\n' ∉ x)
    (hbd1 : breaking = false → bd = none)
    (hbd2 : breaking = true → bd = none ∨
      ∃ d, bd = some d ∧ d ≠ [] ∧ '\n' ∉ d ∧ strip d = d)
    (hbody : ∀ b, body = some b → b.isEmpty = false →
      containsSub (format_body b) BCMark = false)
    (hfoot : (breaking = true ∧ truthy bd = true) ∨
      (∀ f, footer = some f → containsSub f BCMark = false)) :
    ∃ c', parse (create_commit_message ct subject scope body footer breaking bd) =
        some c' ∧
      c'.type = ct ∧ c'.scope = scope ∧ c'.subject = format_subject subject ∧
      c'.breaking = breaking ∧ c'.breaking_description = bd := by
  unfold create_commit_message
  refine parse_format_roundtrip _ hs1 hs2 hs3 hsc hbd1 hbd2 ?_ hfoot
  intro b' hb'
  cases body with
  | none =>
    dsimp only at hb'
    exact absurd hb' (by simp)
  | some b =>
    dsimp only at hb'
    by_cases hbe : b.isEmpty
    · rw [if_pos hbe] at hb'
      exact absurd hb' (by simp)
    · rw [if_neg hbe] at hb'
      injection hb' with h
      subst h
      exact hbody b rfl (by simpa using hbe)

/-- The amended round trip at a concrete input: a feat commit with scope,
body, breaking flag and breaking description survives the round trip. -/
theorem c1_amended_create_parse_roundtrip_witness :
    ∃ c', parse (create_commit_message CommitType.FEAT "add login".data
        (some "api".data) (some "does things".data) none true
        (some "breaks api".data)) = some c' ∧
      c'.type = CommitType.FEAT ∧ c'.scope = some "api".data ∧
      c'.subject = format_subject "add login".data ∧
      c'.breaking = true ∧ c'.breaking_description = some "breaks api".data :=
  c1_amended_create_parse_roundtrip CommitType.FEAT "add login".data
    (some "api".data) (some "does things".data) none true (some "breaks api".data)
    (by decide) (by decide) (by decide)
    (Or.inr ⟨"api".data, rfl, by decide, by decide, by decide⟩)
    (fun h => absurd h (by decide))
    (fun _ => Or.inr ⟨"breaks api".data, rfl, by decide, by decide, by decide⟩)
    (fun b hb hbe => by injection hb with h; subst h; decide)
    (Or.inl ⟨rfl, by decide⟩)
